import Mathlib

/-!
Formal model of `mapeamento_app.py` (day425/ESTOQUE).

A shallow embedding of the inventory application's core: the column-name
normalizer, the schema evolver (`ensure_table_and_columns`), the record
store over SQLite (`mercadorias` table), the targeted update primitive
(`update_single_record`) and the merge-import engine
(`import_excel_inteligente`).

Modelling conventions:
* Spreadsheet cells are `Cell`: `blank` stands for a pandas missing value
  (`None` or a float `NaN`), `str` for a text cell, `num` for a numeric
  cell (modelled as a rational; SQLite/IEEE representation details are
  not needed by any claim).
* SQLite values are `Value`; a column absent from a record's field list
  reads as `Value.null` (SQLite NULL).
* Python exceptions are modelled with `Except` / an `err` field:
  `valueError` is the `ValueError` raised by `str.maketrans` when its two
  string arguments have different lengths; `bindingMismatch` is the
  `sqlite3.ProgrammingError` raised by `cursor.execute` when the number
  of supplied parameters differs from the number of `?` placeholders;
  `duplicateColumn` is the `sqlite3.OperationalError` raised by
  `ALTER TABLE ... ADD COLUMN` for an already-existing column;
  `constraintViolation` is the `sqlite3.IntegrityError` raised when an
  `UPDATE` would duplicate the `codigo` primary key.  On an aborted
  statement we keep the connection-visible state produced by the
  statements that already executed (the source commits once per call and
  wraps no batch in a transaction).
* `pyLower` covers ASCII plus the accented Latin letters occurring in
  the synonym and accent tables, while Python's `str.lower` covers all
  of Unicode; `pyStrip` strips the ASCII whitespace characters that
  `str.strip` strips, Python additionally strips a few non-ASCII space
  code points.  No claim distinguishes these.
* `pyFloat` models Python's `float(...)` on the decimal/exponent forms;
  grouping underscores and `inf`/`nan` literals are mapped to `none`,
  which coincides with the behaviour the program observes, because the
  only use site is `int(float(val))` where `inf`/`nan` raise and are
  caught by the same `except`.
-/

/-- ASCII whitespace stripped by Python's `str.strip()`. -/
def pyWsChar (c : Char) : Bool :=
  c = ' ' || c = '\t' || c = '\n' || c = '\x0d' || c = '\x0b' || c = '\x0c'

/-- `str.strip()` on a character list. -/
def pyStripL (l : List Char) : List Char :=
  ((l.dropWhile pyWsChar).reverse.dropWhile pyWsChar).reverse

/-- `str.strip()`. -/
def pyStrip (s : String) : String :=
  ⟨pyStripL s.data⟩

/-- `str.lower()` on one character: ASCII plus the accented Latin
letters the application deals with (see module comment). -/
def pyLowerChar (c : Char) : Char :=
  match [('Á', 'á'), ('À', 'à'), ('Â', 'â'), ('Ã', 'ã'), ('É', 'é'),
         ('È', 'è'), ('Ê', 'ê'), ('Í', 'í'), ('Ì', 'ì'), ('Î', 'î'),
         ('Ó', 'ó'), ('Ò', 'ò'), ('Ô', 'ô'), ('Õ', 'õ'), ('Ú', 'ú'),
         ('Ù', 'ù'), ('Û', 'û'), ('Ç', 'ç'), ('Ñ', 'ñ')].lookup c with
  | some d => d
  | none => Char.toLower c

/-- `str.lower()`. -/
def pyLower (s : String) : String :=
  ⟨s.data.map pyLowerChar⟩

/-- The first `str.maketrans` argument on line 27 of the source:
38 characters (only three accented uppercase and three accented
lowercase E variants). -/
def accentsFrom : List Char :=
  "ÁÀÂÃáàâãÉÈÊéèêÍÌÎíìîÓÒÔÕóòôõÚÙÛúùûÇçÑñ".data

/-- The second `str.maketrans` argument on line 27 of the source:
40 characters (four E targets per case). -/
def accentsTo : List Char :=
  "AAAAaaaaEEEEeeeeIIIiiiOOOOooooUUUuuuCcNn".data

/-- Errors surfaced by the modelled operations (see module comment). -/
inductive Err where
  | valueError
  | missingKeyColumn
  | duplicateColumn
  | bindingMismatch
  | constraintViolation
deriving DecidableEq, Repr

/-- `str.maketrans(src, dst)` with two string arguments: requires equal
lengths, otherwise raises `ValueError`. -/
def pyMaketrans (src dst : List Char) : Except Err (List (Char × Char)) :=
  if src.length = dst.length then .ok (src.zip dst) else .error .valueError

/-- `str.translate` lookup for one character. -/
def translateChar (tbl : List (Char × Char)) (c : Char) : Char :=
  (tbl.lookup c).getD c

/-- Membership in `[0-9a-z]`. -/
def isAlnumLower (c : Char) : Bool :=
  ('0' ≤ c && c ≤ '9') || ('a' ≤ c && c ≤ 'z')

/-- `re.sub(r"[^0-9a-z]+", "_", s)`: each maximal run of characters
outside `[0-9a-z]` becomes a single underscore.  The boolean argument
records whether we are inside such a run. -/
def subNonAlnum : List Char → Bool → List Char
  | [], _ => []
  | c :: cs, inRun =>
    if isAlnumLower c then c :: subNonAlnum cs false
    else if inRun then subNonAlnum cs true
    else '_' :: subNonAlnum cs true

/-- `re.sub(r"_+", "_", s)`: collapse underscore runs.  The boolean
argument records whether the previous kept character was an
underscore. -/
def collapseUnderscores : List Char → Bool → List Char
  | [], _ => []
  | c :: cs, prevU =>
    if c = '_' then
      if prevU then collapseUnderscores cs true
      else '_' :: collapseUnderscores cs true
    else c :: collapseUnderscores cs false

/-- `s.strip("_")`. -/
def stripUnderscores (l : List Char) : List Char :=
  ((l.dropWhile (· = '_')).reverse.dropWhile (· = '_')).reverse

/-- Lines 21-37 of the source, `normalize_colname`.  The `pd.isna(name)`
branch (which returns `""`) is unreachable for string inputs, which is
all the program ever passes.  Note that `str.maketrans` is evaluated on
every call and raises `ValueError` when its arguments' lengths differ. -/
def normalize_colname (name : String) : Except Err String :=
  let s := pyStrip name
  match pyMaketrans accentsFrom accentsTo with
  | .error e => .error e
  | .ok tbl =>
    let cs := (s.data.map (translateChar tbl)).map pyLowerChar
    let cs := collapseUnderscores (subNonAlnum cs false) false
    let cs := stripUnderscores cs
    .ok (if cs.isEmpty then "col" else ⟨cs⟩)

/-- Lines 90-102 of the source: the fixed synonym table
`friendly_to_normal`. -/
def friendly_to_normal : List (String × String) :=
  [("código", "codigo"), ("codigo", "codigo"), ("produto", "produto"),
   ("categoria", "categoria"), ("rua", "rua"), ("nível", "nivel"),
   ("nivel", "nivel"), ("prédio", "predio"), ("predio", "predio"),
   ("qtde", "qtde"), ("quantidade", "qtde")]

/-- Lines 129-135 of the source: map one raw header to a canonical
column name — synonym table first, `normalize_colname` as fallback. -/
def mapHeader (orig : String) : Except Err String :=
  match friendly_to_normal.lookup (pyLower orig) with
  | some n => .ok n
  | none => normalize_colname orig

/-- An exact rational with explicit numerator and positive denominator,
kept unnormalized so that every arithmetic step is a plain `Int`/`Nat`
computation.  Used to model Python/Excel numbers (see module
comment). -/
structure Frac where
  num : Int
  den : Nat := 1
deriving DecidableEq, Repr

/-- Embed an integer. -/
def Frac.ofInt (n : Int) : Frac := ⟨n, 1⟩

/-- A spreadsheet cell as read by `pd.read_excel(..., dtype=object)`:
missing (`None`/`NaN`), a text cell, or a numeric cell. -/
inductive Cell where
  | blank
  | str (s : String)
  | num (q : Frac)
deriving DecidableEq, Repr

/-- A SQLite value. -/
inductive Value where
  | null
  | text (s : String)
  | int (n : Int)
  | real (q : Frac)
deriving DecidableEq, Repr

/-- The table schema: column name and declared type, in column order. -/
abbrev Schema := List (String × String)

/-- One row of the `mercadorias` table.  Columns absent from `fields`
read as NULL. -/
structure Registro where
  codigo : String
  fields : List (String × Value)
deriving DecidableEq, Repr

/-- The persistent store: the (single) table's schema and rows. -/
structure Store where
  schema : Schema
  rows : List Registro
deriving DecidableEq, Repr

/-- Python `dict` insertion on an association list: overwrite in place
if the key exists, else append. -/
def dictInsert {α : Type} (l : List (String × α)) (k : String) (v : α) :
    List (String × α) :=
  if l.any (·.1 == k) then l.map (fun p => if p.1 == k then (k, v) else p)
  else l ++ [(k, v)]

/-- Value of column `f` in the first record keyed `k` (NULL when the
record or the column is absent). -/
def storeGet (s : Store) (k f : String) : Value :=
  match s.rows.find? (·.codigo == k) with
  | some r => (r.fields.lookup f).getD .null
  | none => .null

/-- The codigo column of every row, in row order. -/
def keysOf (s : Store) : List String :=
  s.rows.map (·.codigo)

/-- `true` iff the list has no duplicates (executable `Nodup`). -/
def distinctB : List String → Bool
  | [] => true
  | x :: xs => !xs.contains x && distinctB xs

/-- Lines 39-57 of the source, the loop body of
`ensure_table_and_columns`: `existing` is the PRAGMA snapshot taken
before the loop, `cur` the connection-visible schema.  `ALTER TABLE ...
ADD COLUMN` raises `duplicate column name` when the column is already in
the current schema, which happens exactly when a name missing from the
snapshot occurs twice in the request; the loop then aborts with the
columns added so far still present on the connection. -/
def ensureGo (cur : Schema) (existing : List String) :
    List (String × String) → Schema × Bool
  | [] => (cur, true)
  | ct :: rest =>
    if existing.contains ct.1 then ensureGo cur existing rest
    else if (cur.map (·.1)).contains ct.1 then (cur, false)
    else ensureGo (cur ++ [ct]) existing rest

/-- Lines 39-57 of the source, `ensure_table_and_columns`: create the
minimal table (`codigo TEXT PRIMARY KEY`) if absent, snapshot the
columns, then add each requested column not in the snapshot.  The
boolean is `false` when the loop raised `duplicate column name`.  Rows
are untouched by construction: `ADD COLUMN` back-fills NULL, which is
how absent fields already read. -/
def ensure_table_and_columns (schema : Schema) (cols : List (String × String)) :
    Schema × Bool :=
  let base := if schema.isEmpty then [("codigo", "TEXT")] else schema
  ensureGo base (base.map (·.1)) cols

/-- Lines 83-112 of the source: the schema guaranteed at startup. -/
def initialSchema : Schema :=
  (ensure_table_and_columns [("codigo", "TEXT")]
    [("produto", "TEXT"), ("categoria", "TEXT"), ("rua", "TEXT"),
     ("nivel", "TEXT"), ("predio", "TEXT"), ("qtde", "INTEGER")]).1

/-- The store at first launch: startup schema, no rows. -/
def initialStore : Store :=
  ⟨initialSchema, []⟩

/-- The key string stored when a SET clause targets the `codigo` column
(TEXT affinity renders numbers as text; a NULL key — allowed by SQLite's
PRIMARY KEY quirk — is not reached by any claim and reads as `""`). -/
def valueToKey : Value → String
  | .null => ""
  | .text s => s
  | .int n => toString n
  | .real q => toString q.num ++ (if q.den = 1 then ".0" else "/" ++ toString q.den)

/-- Apply the SET clauses of an UPDATE to one row. -/
def applySets (sets : List (String × Value)) (r : Registro) : Registro :=
  sets.foldl
    (fun r sv =>
      if sv.1 = "codigo" then { r with codigo := valueToKey sv.2 }
      else { r with fields := dictInsert r.fields sv.1 sv.2 })
    r

/-- `UPDATE mercadorias SET ... WHERE codigo=?`: apply the SET clauses
to every matching row; the statement aborts (and changes nothing) when
the result would duplicate the `codigo` primary key. -/
def sqlUpdate (rows : List Registro) (k : String) (sets : List (String × Value)) :
    Except Unit (List Registro) :=
  let rows' := rows.map (fun r => if r.codigo == k then applySets sets r else r)
  if distinctB (rows'.map (·.codigo)) then .ok rows' else .error ()

/-- Lines 254-272 of the source, `update_single_record`: drop columns
not present in the table, return `false` on an empty effective SET list,
otherwise run the UPDATE (an `IntegrityError` on the key constraint
propagates). -/
def update_single_record (s : Store) (codigo : String)
    (updates : List (String × Value)) : Except Err (Store × Bool) :=
  if updates = [] then .ok (s, false)
  else
    let dbCols := s.schema.map (·.1)
    let filtered := updates.filter (fun p => dbCols.contains p.1)
    if filtered = [] then .ok (s, false)
    else
      match sqlUpdate s.rows codigo filtered with
      | .ok rows' => .ok ({ s with rows := rows' }, true)
      | .error _ => .error .constraintViolation

/-- Numeric value of a digit run. -/
def digitsVal (l : List Char) : Nat :=
  l.foldl (fun a c => a * 10 + (c.toNat - 48)) 0

/-- Parse an optional exponent suffix `e`/`E` sign digits; returns the
exponent and requires the remainder to be empty. -/
def pyFloatExp : List Char → Option Int
  | [] => some 0
  | c :: rest =>
    if c = 'e' || c = 'E' then
      let (esgn, rest) : Int × List Char :=
        match rest with
        | '+' :: r => (1, r)
        | '-' :: r => (-1, r)
        | r => (1, r)
      let ds := rest.takeWhile Char.isDigit
      let rest := rest.dropWhile Char.isDigit
      if ds.isEmpty || !rest.isEmpty then none
      else some (esgn * (digitsVal ds : Int))
    else none

/-- Python `float(str)` on decimal notation (see module comment):
`sign * digits(ip ++ fp) / 10 ^ |fp| * 10 ^ e` as an exact fraction. -/
def pyFloat (s : String) : Option Frac :=
  let cs := pyStripL s.data
  let (sgn, cs) : Int × List Char :=
    match cs with
    | '+' :: r => (1, r)
    | '-' :: r => (-1, r)
    | r => (1, r)
  let ip := cs.takeWhile Char.isDigit
  let cs := cs.dropWhile Char.isDigit
  let (fp, cs) : List Char × List Char :=
    match cs with
    | '.' :: r => (r.takeWhile Char.isDigit, r.dropWhile Char.isDigit)
    | r => ([], r)
  if ip.isEmpty && fp.isEmpty then none
  else
    match pyFloatExp cs with
    | none => none
    | some e =>
      let num : Int := sgn * (digitsVal (ip ++ fp) : Int)
      let den : Nat := 10 ^ fp.length
      if 0 ≤ e then some ⟨num * (10 : Int) ^ e.toNat, den⟩
      else some ⟨num, den * 10 ^ (-e).toNat⟩

/-- Python `int(q)` on a float: truncation toward zero (valid on the
unnormalized fraction as well). -/
def ratTrunc (q : Frac) : Int :=
  q.num.tdiv q.den

/-- `int(float(val))` on a cell value (lines 210 and 234 of the source):
`none` when the conversion raises. -/
def pyIntFloat : Cell → Option Int
  | .blank => none
  | .str s => (pyFloat s).map ratTrunc
  | .num q => some (ratTrunc q)

/-- A present cell value bound as a SQLite parameter (non-`qtde`
columns). -/
def cellValue : Cell → Value
  | .blank => .null
  | .str s => .text s
  | .num q => .real q

/-- `str(val)` for the key cell (Python float formatting differs
cosmetically; no claim uses numeric keys). -/
def pyStrCell : Cell → String
  | .blank => "None"
  | .str s => s
  | .num q => toString q.num ++ (if q.den = 1 then ".0" else "/" ++ toString q.den)

/-- Lines 174-189 of the source: is the cell present, and with which
normalized value?  Missing markers are dropped, strings are stripped and
dropped if empty, numbers are kept. -/
def presentVal : Cell → Option Cell
  | .blank => none
  | .str v => if pyStrip v = "" then none else some (.str (pyStrip v))
  | .num q => some (.num q)

/-- `row.get(label, None)` on a row laid out positionally under the
(stripped) header list. -/
def rowGet (hs : List String) (row : List Cell) (label : String) : Cell :=
  ((hs.zip row).lookup label).getD .blank

/-- Lines 163-168 of the source: the row's key — `None`, float NaN and
whitespace-only text are rejected, text is stripped. -/
def rowKeyOf (hs : List String) (codigoCol : String) (row : List Cell) :
    Option String :=
  match rowGet hs row codigoCol with
  | .blank => none
  | .str s => if pyStrip s = "" then none else some (pyStrip s)
  | .num q =>
    if pyStrip (pyStrCell (.num q)) = "" then none
    else some (pyStrip (pyStrCell (.num q)))

/-- Lines 174-189 of the source: the `values` dict — normalized column
name to present cell value, in `colmap` iteration order, later
occurrences of the same normalized name overwriting earlier ones. -/
def rowValues (hs : List String) (colmap : List (String × String))
    (row : List Cell) : List (String × Cell) :=
  colmap.foldl
    (fun acc oc =>
      match presentVal (rowGet hs row oc.1) with
      | none => acc
      | some c => dictInsert acc oc.2 c)
    []

/-- Lines 191-193 of the source: `values.pop("codigo")` — the change-set
of a row never contains the key column. -/
def changeSet (hs : List String) (colmap : List (String × String))
    (row : List Cell) : List (String × Cell) :=
  (rowValues hs colmap row).filter (fun p => p.1 != "codigo")

/-- Lines 200-216 of the source: the SET clauses of the UPDATE.  Each
kept column contributes a `?` placeholder; for `qtde` the parameter is
the coerced integer, and a failed coercion hits `continue` after the
placeholder was appended, leaving a clause with no parameter (`none`). -/
def buildSetItems (dbCols : List String) :
    List (String × Cell) → List (String × Option Value)
  | [] => []
  | cv :: rest =>
    if dbCols.contains cv.1 then
      (cv.1,
        if cv.1 = "qtde" then (pyIntFloat cv.2).map Value.int
        else some (cellValue cv.2)) :: buildSetItems dbCols rest
    else buildSetItems dbCols rest

/-- Lines 226-239 of the source: column/value pairs of the INSERT (the
key column is added separately); a failed `qtde` coercion inserts
NULL. -/
def buildInsertItems (dbCols : List String) :
    List (String × Cell) → List (String × Value)
  | [] => []
  | cv :: rest =>
    if dbCols.contains cv.1 then
      (cv.1,
        if cv.1 = "qtde" then
          match pyIntFloat cv.2 with
          | some n => Value.int n
          | none => Value.null
        else cellValue cv.2) :: buildInsertItems dbCols rest
    else buildInsertItems dbCols rest

/-- The SET clauses that do carry a parameter. -/
def desome (items : List (String × Option Value)) : List (String × Value) :=
  items.filterMap (fun p => p.2.map ((p.1, ·)))

/-- How one data row was counted. -/
inductive Bucket where
  | ins
  | upd
  | skp
deriving DecidableEq, Repr

/-- Lines 162-245 of the source: process one data row against the live
store.  `hs` are the stripped headers, `colmap` the header map,
`codigoCol` the raw key column, `dbCols` the table's columns after
schema evolution.  An `inr` result is a raised exception: the batch loop
has no handler, so the import aborts there. -/
def stepRow (hs : List String) (colmap : List (String × String))
    (codigoCol : String) (dbCols : List String) (s : Store)
    (row : List Cell) : (Bucket ⊕ Err) × Store :=
  match rowKeyOf hs codigoCol row with
  | none => (.inl .skp, s)
  | some k =>
    let cs := changeSet hs colmap row
    if s.rows.any (·.codigo == k) then
      if cs = [] then (.inl .skp, s)
      else
        let items := buildSetItems dbCols cs
        if items = [] then (.inl .skp, s)
        else if items.any (·.2 == none) then (.inr .bindingMismatch, s)
        else
          match sqlUpdate s.rows k (desome items) with
          | .ok rows' => (.inl .upd, { s with rows := rows' })
          | .error _ => (.inr .constraintViolation, s)
    else
      (.inl .ins, { s with rows := s.rows ++ [⟨k, buildInsertItems dbCols cs⟩] })

/-- Add one row to the right counter. -/
def bump : Bucket → Nat × Nat × Nat → Nat × Nat × Nat
  | .ins, (i, u, g) => (i + 1, u, g)
  | .upd, (i, u, g) => (i, u + 1, g)
  | .skp, (i, u, g) => (i, u, g + 1)

/-- Lines 155-247 of the source: the per-row loop.  A raised exception
aborts the remaining rows; the store keeps the rows already applied
(each row is its own committed-on-return statement, no batch
transaction). -/
def runRows (hs : List String) (colmap : List (String × String))
    (codigoCol : String) (dbCols : List String) (s : Store) :
    List (List Cell) → (Nat × Nat × Nat) × Store × Option Err
  | [] => ((0, 0, 0), s, none)
  | row :: rest =>
    match stepRow hs colmap codigoCol dbCols s row with
    | (.inl b, s') =>
      let r := runRows hs colmap codigoCol dbCols s' rest
      (bump b r.1, r.2)
    | (.inr e, s') => ((0, 0, 0), s', some e)

/-- The bucket of each processed row, truncated at a raised exception. -/
def rowTrace (hs : List String) (colmap : List (String × String))
    (codigoCol : String) (dbCols : List String) (s : Store) :
    List (List Cell) → List Bucket
  | [] => []
  | row :: rest =>
    match stepRow hs colmap codigoCol dbCols s row with
    | (.inl b, s') => b :: rowTrace hs colmap codigoCol dbCols s' rest
    | (.inr _, _) => []

/-- Recursive worker of `dedupFirst`: drop elements already seen. -/
def dedupFirstAux (seen : List String) : List String → List String
  | [] => []
  | h :: t =>
    if seen.contains h then dedupFirstAux seen t
    else h :: dedupFirstAux (seen ++ [h]) t

/-- Deduplicate keeping first occurrences (`dict` key semantics for
`colmap`). -/
def dedupFirst (l : List String) : List String :=
  dedupFirstAux [] l

/-- Lines 128-135 of the source: build `colmap` over the (deduplicated)
stripped headers; the first header missing from the synonym table calls
`normalize_colname`, whose `ValueError` propagates. -/
def buildColmap : List String → Except Err (List (String × String))
  | [] => .ok []
  | h :: rest =>
    match mapHeader h with
    | .error e => .error e
    | .ok n =>
      match buildColmap rest with
      | .error e => .error e
      | .ok tl => .ok ((h, n) :: tl)

/-- An uploaded sheet: first row of headers, then data rows laid out
positionally under the headers. -/
structure Table where
  headers : List String
  rows : List (List Cell)
deriving Repr

/-- Result of one call of `import_excel_inteligente`: the three counters
(meaningless when `err` is set: the Python function raised and returned
nothing), the store state the connection sees afterwards, and the raised
exception, if any (`missingKeyColumn` stands for the `st.error` +
`return (0,0,0)` early exit on line 140-142). -/
structure ImportOutcome where
  inserted : Nat
  updated : Nat
  ignored : Nat
  store : Store
  err : Option Err
deriving DecidableEq, Repr

/-- Lines 116-248 of the source, `import_excel_inteligente`: strip the
headers, build `colmap` (aborts on the normalizer's `ValueError`),
fail fast when no header maps to `codigo`, evolve the schema (aborts on
`duplicate column name`), then upsert row by row. -/
def import_excel_inteligente (s : Store) (t : Table) : ImportOutcome :=
  let hs := t.headers.map pyStrip
  match buildColmap (dedupFirst hs) with
  | .error e => ⟨0, 0, 0, s, some e⟩
  | .ok colmap =>
    match (colmap.filter (fun p => p.2 == "codigo")).map (·.1) with
    | [] => ⟨0, 0, 0, s, some .missingKeyColumn⟩
    | codigoCol :: _ =>
      let colsToEnsure := colmap.map
        (fun p => (p.2, if p.2 = "qtde" then "INTEGER" else "TEXT"))
      let es := ensure_table_and_columns s.schema colsToEnsure
      if es.2 then
        let dbCols := es.1.map (·.1)
        let r := runRows hs colmap codigoCol dbCols { s with schema := es.1 } t.rows
        ⟨r.1.1, r.1.2.1, r.1.2.2, r.2.1, r.2.2⟩
      else ⟨0, 0, 0, { s with schema := es.1 }, some .duplicateColumn⟩

/-! ## Concrete instances used by the verification -/

/-- The startup table columns, by name. -/
def dbColsInit : List String := initialSchema.map Prod.fst

/-- A store holding one record `A1` with a product and a quantity. -/
def storeA : Store :=
  ⟨initialSchema, [⟨"A1", [("produto", Value.text "Widget"), ("qtde", Value.int 5)]⟩]⟩

/-- Header map for the sheets with codigo, qtde and produto columns. -/
def colmapCQP : List (String × String) :=
  [("codigo", "codigo"), ("qtde", "qtde"), ("produto", "produto")]

/-- Header map for the sheets with codigo and produto columns. -/
def colmapCP : List (String × String) :=
  [("codigo", "codigo"), ("produto", "produto")]

/-- A sheet whose `A1` row carries an unparseable quantity `"abc"`
next to a real product value. -/
def tQtdeAbc : Table :=
  ⟨["codigo", "qtde", "produto"], [[Cell.str "A1", Cell.str "abc", Cell.str "X"]]⟩

/-- A sheet re-importing `A1` with quantity text `"12.0"`. -/
def tQtde12 : Table :=
  ⟨["codigo", "qtde"], [[Cell.str "A1", Cell.str "12.0"]]⟩

/-- A sheet with a single unrecognized header and no key column. -/
def tFoo : Table := ⟨["foo"], []⟩

/-- A sheet whose only header is the synonym `produto` — no key
column, and no header falls through to the normalizer. -/
def tProdutoOnly : Table := ⟨["produto"], [[Cell.str "x"]]⟩

/-- A two-row sheet: one fresh record, one blank-key row. -/
def tInsertTwo : Table :=
  ⟨["Codigo", "Produto"], [[Cell.str "B1", Cell.str "Bolt"], [Cell.blank, Cell.str "z"]]⟩

/-- A key-column sheet whose single row updates `A1` with an
unparseable quantity `"n/a"`. -/
def tAbortQtde : Table :=
  ⟨["codigo", "qtde", "categoria"],
   [[Cell.str "A1", Cell.str "n/a", Cell.str "c"]]⟩

/-- A field request repeating a missing name (`x`) before another
missing name (`y`). -/
def dupColsXY : List (String × String) :=
  [("x", "TEXT"), ("x", "TEXT"), ("y", "TEXT")]

/-- A field request repeating a missing name (`z`) before another
missing name (`w`). -/
def dupColsZW : List (String × String) :=
  [("z", "TEXT"), ("z", "TEXT"), ("w", "TEXT")]

/-- A store holding one record keyed `A`. -/
def storeOneA : Store := ⟨initialSchema, [⟨"A", []⟩]⟩

/-- A batch repeating the previously-unknown key `K`. -/
def tDupK : Table :=
  ⟨["codigo", "produto"], [[Cell.str "K", Cell.str "a"], [Cell.str "K", Cell.str "b"]]⟩

/-- A batch repeating the previously-unknown key `K2` with an
unparseable quantity in both rows. -/
def tDupKAbort : Table :=
  ⟨["codigo", "qtde"], [[Cell.str "K2", Cell.str "bad"], [Cell.str "K2", Cell.str "bad"]]⟩

/-- Stripped headers of the codigo/qtde/produto sheets. -/
def hsCQP : List String := ["codigo", "qtde", "produto"]

/-- Stripped headers of the codigo/produto sheets. -/
def hsCP : List String := ["codigo", "produto"]

/-- A row for `A1` whose quantity cell is whitespace and whose product
cell is missing: key only, empty change-set. -/
def rowBlankA1 : List Cell := [Cell.str "A1", Cell.str " ", Cell.blank]

/-- The first row of `tDupKAbort` alone. -/
def tOneKAbort : Table :=
  ⟨["codigo", "qtde"], [[Cell.str "K2", Cell.str "bad"]]⟩

/-! ## C8: the normalizer -/

/-- Claim C8 (code bug).  The spec asks for a total, idempotent normalizer
with fallback `"col"`, but `normalize_colname` evaluates
`str.maketrans` on two translation strings of different lengths (38
vs. 40 characters — the source string has three accented E forms per
case, the target four), so every call with a string argument raises
`ValueError`: `normalize("")` and `normalize("!!!")` raise instead of
returning `"col"`, and the function is not total on strings. -/
theorem normalize_colname_always_raises :
    normalize_colname "" = Except.error Err.valueError ∧
    normalize_colname "!!!" = Except.error Err.valueError ∧
    ∀ s : String, normalize_colname s = Except.error Err.valueError := by
  refine ⟨rfl, rfl, fun s => ?_⟩
  unfold normalize_colname
  rfl

/-! ## Generic list lemmas -/

lemma distinctB_iff (l : List String) : distinctB l = true ↔ l.Nodup := by
  induction l with
  | nil => simp [distinctB]
  | cons x xs ih => simp [distinctB, ih]

/-! ## Schema evolution lemmas (C5, C6) -/

lemma ensureGo_extends (cols : List (String × String)) :
    ∀ (cur : Schema) (existing : List String),
      ∃ tail : Schema, (ensureGo cur existing cols).1 = cur ++ tail := by
  induction cols with
  | nil => intro cur existing; exact ⟨[], by simp [ensureGo]⟩
  | cons ct rest ih =>
    intro cur existing
    by_cases h1 : ct.1 ∈ existing
    · rw [ensureGo, if_pos (by simpa using h1)]
      exact ih cur existing
    · by_cases h2 : ct.1 ∈ cur.map Prod.fst
      · rw [ensureGo, if_neg (by simpa using h1), if_pos (by simpa using h2)]
        exact ⟨[], by simp⟩
      · rw [ensureGo, if_neg (by simpa using h1), if_neg (by simpa using h2)]
        obtain ⟨tl, htl⟩ := ih (cur ++ [ct]) existing
        exact ⟨ct :: tl, by simp [htl]⟩

lemma ensureGo_ok_of_distinct :
    ∀ (cols : List (String × String)) (cur : Schema) (existing extra : List String),
      cur.map Prod.fst = existing ++ extra →
      (∀ p ∈ cols, p.1 ∉ existing → p.1 ∉ extra) →
      ((cols.filter (fun p => !existing.contains p.1)).map Prod.fst).Nodup →
      ensureGo cur existing cols =
        (cur ++ cols.filter (fun p => !existing.contains p.1), true) := by
  intro cols
  induction cols with
  | nil => intro cur existing extra _ _ _; simp [ensureGo]
  | cons ct rest ih =>
    intro cur existing extra hmap hdisj hdist
    by_cases h1 : ct.1 ∈ existing
    · rw [List.filter_cons_of_neg (by simpa using h1)]
      rw [List.filter_cons_of_neg (by simpa using h1)] at hdist
      rw [ensureGo, if_pos (by simpa using h1)]
      exact ih cur existing extra hmap
        (fun p hp => hdisj p (List.mem_cons_of_mem _ hp)) hdist
    · have hextra : ct.1 ∉ extra := hdisj ct (List.mem_cons_self _ _) h1
      have h2 : ct.1 ∉ cur.map Prod.fst := by
        rw [hmap]
        simp only [List.mem_append]
        rintro (h | h)
        · exact h1 h
        · exact hextra h
      rw [List.filter_cons_of_pos (by simpa using h1)]
      rw [List.filter_cons_of_pos (by simpa using h1)] at hdist
      simp only [List.map_cons, List.nodup_cons] at hdist
      obtain ⟨hnotin, hdrest⟩ := hdist
      have hstep := ih (cur ++ [ct]) existing (extra ++ [ct.1])
        (by simp [hmap])
        (by
          intro p hp hpex
          simp only [List.mem_append, List.mem_singleton]
          rintro (h | h)
          · exact hdisj p (List.mem_cons_of_mem _ hp) hpex h
          · refine hnotin ?_
            rw [← h]
            exact List.mem_map_of_mem Prod.fst
              (List.mem_filter.mpr ⟨hp, by simpa using hpex⟩))
        hdrest
      rw [ensureGo, if_neg (by simpa using h1), if_neg (by simpa using h2), hstep]
      simp

/-- If every requested name is already a column, the whole loop is a
skip. -/
lemma ensureGo_noop_of_mem :
    ∀ (cols : List (String × String)) (cur : Schema) (existing : List String),
      (∀ p ∈ cols, p.1 ∈ existing) →
      ensureGo cur existing cols = (cur, true) := by
  intro cols
  induction cols with
  | nil => intro cur existing _; simp [ensureGo]
  | cons ct rest ih =>
    intro cur existing hall
    rw [ensureGo, if_pos (by simpa using hall ct (List.mem_cons_self _ _))]
    exact ih cur existing (fun p hp => hall p (List.mem_cons_of_mem _ hp))

/-- After a successful loop every requested name is a column of the
result. -/
lemma ensureGo_mem_of_ok :
    ∀ (cols : List (String × String)) (cur : Schema) (existing : List String) (s2 : Schema),
      (∀ x ∈ existing, x ∈ cur.map Prod.fst) →
      ensureGo cur existing cols = (s2, true) →
      ∀ p ∈ cols, p.1 ∈ s2.map Prod.fst := by
  intro cols
  induction cols with
  | nil => intro cur existing s2 _ _ p hp; cases hp
  | cons ct rest ih =>
    intro cur existing s2 hsub hok p hp
    by_cases h1 : ct.1 ∈ existing
    · rw [ensureGo, if_pos (by simpa using h1)] at hok
      rcases List.mem_cons.mp hp with he | hm
      · obtain ⟨tl, htl⟩ := ensureGo_extends rest cur existing
        rw [hok] at htl
        have htl' : s2 = cur ++ tl := by simpa using htl
        have hmem : p.1 ∈ cur.map Prod.fst := hsub p.1 (he ▸ h1)
        rw [htl']
        simp only [List.map_append, List.mem_append]
        exact Or.inl hmem
      · exact ih cur existing s2 hsub hok p hm
    · by_cases h2 : ct.1 ∈ cur.map Prod.fst
      · rw [ensureGo, if_neg (by simpa using h1), if_pos (by simpa using h2)] at hok
        cases hok
      · rw [ensureGo, if_neg (by simpa using h1), if_neg (by simpa using h2)] at hok
        have hsub' : ∀ x ∈ existing, x ∈ (cur ++ [ct]).map Prod.fst := by
          intro x hx
          simp only [List.map_append, List.mem_append]
          exact Or.inl (hsub x hx)
        rcases List.mem_cons.mp hp with he | hm
        · obtain ⟨tl, htl⟩ := ensureGo_extends rest (cur ++ [ct]) existing
          rw [hok] at htl
          have htl' : s2 = cur ++ [ct] ++ tl := by simpa using htl
          rw [htl', he]
          simp
        · exact ih (cur ++ [ct]) existing s2 hsub' hok p hm

/-- A successful `ensure_table_and_columns` leaves every requested name
present, and its result is never the empty schema. -/
lemma ensure_ok_mem (schema s2 : Schema) (cols : List (String × String))
    (hok : ensure_table_and_columns schema cols = (s2, true)) :
    (∀ p ∈ cols, p.1 ∈ s2.map Prod.fst) ∧ s2 ≠ [] := by
  unfold ensure_table_and_columns at hok
  constructor
  · exact ensureGo_mem_of_ok cols _ _ s2 (fun x hx => hx) hok
  · obtain ⟨tl, htl⟩ :=
      ensureGo_extends cols (if schema.isEmpty then [("codigo", "TEXT")] else schema)
        ((if schema.isEmpty then [("codigo", "TEXT")] else schema).map Prod.fst)
    rw [hok] at htl
    have htl' : s2 = (if schema.isEmpty then [("codigo", "TEXT")] else schema) ++ tl := by
      simpa using htl
    intro hnil
    rw [hnil] at htl'
    by_cases hs : schema.isEmpty
    · rw [if_pos hs] at htl'
      simp at htl'
    · rw [if_neg hs] at htl'
      have hlen := congrArg List.length htl'
      simp only [List.length_nil, List.length_append] at hlen
      have hsch : schema = [] := List.length_eq_zero.mp (by omega)
      exact hs (by simp [hsch])

/-! ## C5, C6: the schema evolver -/

/-- Claim C5 (amended).  A call of `ensure_table_and_columns` whose
missing requested names are pairwise distinct adds exactly the missing
columns, in request order, and reports success; afterwards every
requested name is a column.  (The unamended claim — *every* call is
atomic — fails: a request repeating a missing name aborts with
`duplicate column name` midway, see the counterexample.) -/
theorem ensure_adds_all_of_distinct (schema : Schema) (cols : List (String × String))
    (hne : schema ≠ [])
    (hdist : distinctB ((cols.filter
        (fun p => !(schema.map Prod.fst).contains p.1)).map Prod.fst) = true) :
    ensure_table_and_columns schema cols =
      (schema ++ cols.filter (fun p => !(schema.map Prod.fst).contains p.1), true) ∧
    ∀ p ∈ cols, p.1 ∈ (ensure_table_and_columns schema cols).1.map Prod.fst := by
  have hbase : (if schema.isEmpty then ([("codigo", "TEXT")] : Schema) else schema) = schema := by
    rw [if_neg (by simpa using hne)]
  have hmain : ensure_table_and_columns schema cols =
      (schema ++ cols.filter (fun p => !(schema.map Prod.fst).contains p.1), true) := by
    unfold ensure_table_and_columns
    rw [hbase]
    exact ensureGo_ok_of_distinct cols schema (schema.map Prod.fst) []
      (by simp) (fun p _ h => by simp) ((distinctB_iff _).mp hdist)
  refine ⟨hmain, ?_⟩
  intro p hp
  rw [hmain]
  simp only [List.map_append, List.mem_append]
  by_cases hmem : p.1 ∈ schema.map Prod.fst
  · exact Or.inl hmem
  · refine Or.inr (List.mem_map_of_mem Prod.fst ?_)
    exact List.mem_filter.mpr ⟨hp, by simpa using hmem⟩

/-- Claim C5 (counterexample).  Requesting `x, x, y` on the startup
schema adds `x`, then aborts on the duplicate, never adding `y`: the
call neither added all requested missing fields nor left the schema
unchanged. -/
theorem ensure_incomplete_add_example :
    (ensure_table_and_columns initialSchema dupColsXY).2 = false ∧
    "x" ∈ (ensure_table_and_columns initialSchema dupColsXY).1.map Prod.fst ∧
    "y" ∉ (ensure_table_and_columns initialSchema dupColsXY).1.map Prod.fst ∧
    (ensure_table_and_columns initialSchema dupColsXY).1 ≠ initialSchema := by
  decide

/-- Witness for C5: ensuring a fresh `obs` column and the existing
`produto` column adds exactly `obs`. -/
theorem ensure_adds_all_witness :
    ensure_table_and_columns initialSchema [("obs", "TEXT"), ("produto", "TEXT")] =
      (initialSchema ++ [("obs", "TEXT")], true) :=
  (ensure_adds_all_of_distinct initialSchema [("obs", "TEXT"), ("produto", "TEXT")]
    (by decide) (by decide)).1

/-- Claim C6 (amended).  Re-ensuring already-present fields is a no-op —
the schema, in particular each field's declared type, is unchanged even
when the call passes a different type — and re-running a *successful*
call is a no-op.  (The unamended claim — re-running *any* call twice
equals running it once — fails: a call aborted by a repeated missing
name is completed, not repeated, by its re-run, see the
counterexample.) -/
theorem ensure_idempotent_and_type_stable :
    (∀ (schema : Schema) (cols : List (String × String)),
        schema ≠ [] → (∀ p ∈ cols, p.1 ∈ schema.map Prod.fst) →
        ensure_table_and_columns schema cols = (schema, true)) ∧
    (∀ (schema s2 : Schema) (cols : List (String × String)),
        ensure_table_and_columns schema cols = (s2, true) →
        ensure_table_and_columns s2 cols = (s2, true)) := by
  have hnoop : ∀ (schema : Schema) (cols : List (String × String)),
      schema ≠ [] → (∀ p ∈ cols, p.1 ∈ schema.map Prod.fst) →
      ensure_table_and_columns schema cols = (schema, true) := by
    intro schema cols hne hall
    unfold ensure_table_and_columns
    rw [if_neg (by simpa using hne)]
    exact ensureGo_noop_of_mem cols schema _ hall
  refine ⟨hnoop, ?_⟩
  intro schema s2 cols hok
  obtain ⟨hmem, hne⟩ := ensure_ok_mem schema s2 cols hok
  exact hnoop s2 cols hne hmem

/-- Claim C6 (counterexample).  Requesting `z, z, w` aborts after adding
`z`; running the same request again also adds `w`, so running twice is
not the same as running once. -/
theorem ensure_rerun_differs_example :
    (ensure_table_and_columns
        (ensure_table_and_columns initialSchema dupColsZW).1 dupColsZW).1 ≠
      (ensure_table_and_columns initialSchema dupColsZW).1 := by
  decide

/-- Witness for C6: re-ensuring `produto` with the conflicting declared
type `INTEGER` is a no-op — the existing `TEXT` type wins. -/
theorem ensure_idempotent_witness :
    ensure_table_and_columns initialSchema [("produto", "INTEGER")] = (initialSchema, true) :=
  ensure_idempotent_and_type_stable.1 initialSchema [("produto", "INTEGER")]
    (by decide) (by decide)

/-! ## C3: missing key column -/

/-- Claim C3 (amended).  When no header maps to the key column the import
aborts before any schema mutation or row processing and the store is
completely untouched: with the `MissingKeyColumn` error when every
header resolves through the synonym table, but with the normalizer's
`ValueError` when some header misses the synonym table — the header
mapping loop runs before the key-column check, so the fail-fast error is
not always `MissingKeyColumn` as the unamended claim states (see the
counterexample). -/
theorem import_missing_key_aborts :
    (∀ (s : Store) (t : Table) (colmap : List (String × String)),
        buildColmap (dedupFirst (t.headers.map pyStrip)) = .ok colmap →
        (∀ p ∈ colmap, p.2 ≠ "codigo") →
        import_excel_inteligente s t = ⟨0, 0, 0, s, some .missingKeyColumn⟩) ∧
    (∀ (s : Store) (t : Table),
        buildColmap (dedupFirst (t.headers.map pyStrip)) = .error Err.valueError →
        import_excel_inteligente s t = ⟨0, 0, 0, s, some .valueError⟩) := by
  constructor
  · intro s t colmap hcm hnk
    have hfil : colmap.filter (fun p => p.2 == "codigo") = [] := by
      rw [List.filter_eq_nil_iff]
      intro p hp
      simpa using hnk p hp
    simp only [import_excel_inteligente, hcm, hfil, List.map_nil]
  · intro s t hcm
    simp only [import_excel_inteligente, hcm]

/-- Claim C3 (counterexample).  A sheet with the single header `foo` (no
key column) aborts with `ValueError` from the normalizer, not with
`MissingKeyColumn` — though still before any mutation, with the store
untouched. -/
theorem import_no_key_header_raises_value_error :
    import_excel_inteligente initialStore tFoo =
      ⟨0, 0, 0, initialStore, some Err.valueError⟩ ∧
    Err.valueError ≠ Err.missingKeyColumn := by
  exact ⟨by decide, by decide⟩

/-- Witness for C3: a synonym-only sheet without a key column is
refused with `MissingKeyColumn` and the store is untouched. -/
theorem import_missing_key_aborts_witness :
    import_excel_inteligente initialStore tProdutoOnly =
      ⟨0, 0, 0, initialStore, some Err.missingKeyColumn⟩ :=
  import_missing_key_aborts.1 initialStore tProdutoOnly [("produto", "produto")]
    rfl (by decide)

/-! ## C2: quantity coercion -/

/-- Claim C2 (code bug).  The spec says a failed quantity coercion is
dropped from the change-set while the rest of the row still applies.
The code intends this (`# se não conseguir converter, pula esse campo`)
but appends the `"qtde" = ?` SET clause *before* the `try`, so the
`continue` leaves a placeholder with no parameter and `cursor.execute`
raises `sqlite3.ProgrammingError` (incorrect number of bindings),
aborting the whole import: on an existing key `A1`, the row with
quantity `"abc"` and product `"X"` raises instead of updating the
product, and the record keeps its old values.  The successful half of
the claim does hold: quantity text `"12.0"` is stored as integer 12. -/
theorem qtde_coercion_update_behaviour :
    import_excel_inteligente storeA tQtdeAbc =
      ⟨0, 0, 0, storeA, some Err.bindingMismatch⟩ ∧
    (import_excel_inteligente storeA tQtde12).err = none ∧
    (import_excel_inteligente storeA tQtde12).updated = 1 ∧
    storeGet (import_excel_inteligente storeA tQtde12).store "A1" "qtde" = Value.int 12 ∧
    storeGet (import_excel_inteligente storeA tQtde12).store "A1" "produto" =
      Value.text "Widget" := by
  refine ⟨by decide, by decide, by decide, by decide, by decide⟩

/-! ## Association list and UPDATE lemmas -/

lemma lookup_map_overwrite {α : Type} (l : List (String × α)) (k f : String) (v : α)
    (h : (f == k) = false) :
    (l.map (fun p => if p.1 == k then (k, v) else p)).lookup f = l.lookup f := by
  induction l with
  | nil => rfl
  | cons p rest ih =>
    simp only [List.map_cons]
    by_cases hp : (p.1 == k) = true
    · rw [if_pos hp]
      have hpeq : p.1 = k := by simpa using hp
      have hfp : (f == p.1) = false := by rw [hpeq]; exact h
      simp only [List.lookup, h, hfp]
      simpa using ih
    · rw [if_neg hp]
      cases hfp : f == p.1
      · simp only [List.lookup, hfp]
        simpa using ih
      · simp [List.lookup, hfp]

lemma lookup_append_singleton {α : Type} (l : List (String × α)) (k f : String) (v : α)
    (h : (f == k) = false) :
    (l ++ [(k, v)]).lookup f = l.lookup f := by
  induction l with
  | nil => simp [List.lookup, h]
  | cons p rest ih =>
    cases hfp : f == p.1 <;> simp [List.lookup, hfp, ih]

lemma dictInsert_lookup_ne {α : Type} (l : List (String × α)) (k f : String) (v : α)
    (h : f ≠ k) :
    (dictInsert l k v).lookup f = l.lookup f := by
  have hfk : (f == k) = false := by simpa using h
  unfold dictInsert
  by_cases hany : l.any (·.1 == k) = true
  · rw [if_pos hany]
    exact lookup_map_overwrite l k f v hfk
  · rw [if_neg hany]
    exact lookup_append_singleton l k f v hfk

lemma applySets_step (sv : String × Value) (rest : List (String × Value)) (r : Registro) :
    applySets (sv :: rest) r =
      applySets rest
        (if sv.1 = "codigo" then { r with codigo := valueToKey sv.2 }
         else { r with fields := dictInsert r.fields sv.1 sv.2 }) := by
  simp [applySets]

lemma applySets_codigo (sets : List (String × Value)) :
    ∀ (r : Registro), (∀ p ∈ sets, p.1 ≠ "codigo") →
      (applySets sets r).codigo = r.codigo := by
  induction sets with
  | nil => intro r _; rfl
  | cons sv rest ih =>
    intro r h
    rw [applySets_step, if_neg (h sv (List.mem_cons_self _ _))]
    exact ih _ (fun p hp => h p (List.mem_cons_of_mem _ hp))

lemma applySets_lookup (sets : List (String × Value)) :
    ∀ (r : Registro) (f : String), (∀ p ∈ sets, p.1 ≠ f) →
      (applySets sets r).fields.lookup f = r.fields.lookup f := by
  induction sets with
  | nil => intro r f _; rfl
  | cons sv rest ih =>
    intro r f h
    rw [applySets_step]
    by_cases hc : sv.1 = "codigo"
    · rw [if_pos hc]
      exact ih _ f (fun p hp => h p (List.mem_cons_of_mem _ hp))
    · rw [if_neg hc]
      rw [ih _ f (fun p hp => h p (List.mem_cons_of_mem _ hp))]
      exact dictInsert_lookup_ne r.fields sv.1 f sv.2
        (fun he => h sv (List.mem_cons_self _ _) he.symm)

lemma sqlUpdate_ok_rows (rows : List Registro) (k : String)
    (sets : List (String × Value)) (rows' : List Registro)
    (hok : sqlUpdate rows k sets = .ok rows') :
    rows' = rows.map (fun r => if r.codigo == k then applySets sets r else r) ∧
    distinctB (rows'.map (·.codigo)) = true := by
  unfold sqlUpdate at hok
  by_cases hd : distinctB ((rows.map
      (fun r => if r.codigo == k then applySets sets r else r)).map (·.codigo))
  · rw [if_pos hd] at hok
    cases hok
    exact ⟨rfl, hd⟩
  · rw [if_neg hd] at hok
    cases hok

lemma sqlUpdate_keys_eq (rows : List Registro) (k : String)
    (sets : List (String × Value)) (rows' : List Registro)
    (hnc : ∀ p ∈ sets, p.1 ≠ "codigo")
    (hok : sqlUpdate rows k sets = .ok rows') :
    rows'.map (·.codigo) = rows.map (·.codigo) := by
  obtain ⟨he, _⟩ := sqlUpdate_ok_rows rows k sets rows' hok
  rw [he, List.map_map]
  refine List.map_congr_left ?_
  intro r _
  by_cases hr : r.codigo == k
  · simp [Function.comp, hr, applySets_codigo sets r hnc]
  · simp [Function.comp, hr]

lemma find?_map_pres (rows : List Registro) (k : String)
    (fn : Registro → Registro) (hcod : ∀ r, (fn r).codigo = r.codigo) :
    (rows.map fn).find? (·.codigo == k) = (rows.find? (·.codigo == k)).map fn := by
  induction rows with
  | nil => rfl
  | cons r rest ih =>
    cases hr : r.codigo == k
    · have : ((fn r).codigo == k) = false := by rw [hcod r]; exact hr
      simp [List.find?, this, hr, ih]
    · have : ((fn r).codigo == k) = true := by rw [hcod r]; exact hr
      simp [List.find?, this, hr]

/-! ## Change-set lemmas -/

lemma changeSet_no_codigo (hs : List String) (colmap : List (String × String))
    (row : List Cell) :
    ∀ p ∈ changeSet hs colmap row, p.1 ≠ "codigo" := by
  intro p hp
  have := List.of_mem_filter hp
  simpa using this

lemma buildSetItems_sub (dc : List String) :
    ∀ (cs : List (String × Cell)) (p : String × Option Value),
      p ∈ buildSetItems dc cs → p.1 ∈ cs.map Prod.fst := by
  intro cs
  induction cs with
  | nil => intro p hp; cases hp
  | cons cv rest ih =>
    intro p hp
    rw [buildSetItems] at hp
    by_cases hc : dc.contains cv.1
    · rw [if_pos hc] at hp
      rcases List.mem_cons.mp hp with he | hm
      · subst he; simp
      · simp only [List.map_cons, List.mem_cons]
        exact Or.inr (ih p hm)
    · rw [if_neg hc] at hp
      simp only [List.map_cons, List.mem_cons]
      exact Or.inr (ih p hp)

lemma desome_sub (items : List (String × Option Value)) :
    ∀ p ∈ desome items, p.1 ∈ items.map Prod.fst := by
  intro p hp
  obtain ⟨q, hq, he⟩ := List.mem_filterMap.mp hp
  cases hv : q.2 with
  | none => rw [hv] at he; cases he
  | some v =>
    rw [hv] at he
    simp only [Option.map_some'] at he
    cases he
    exact List.mem_map_of_mem Prod.fst hq

lemma buildSetItems_ne_nil (dc : List String) (cv : String × Cell)
    (rest : List (String × Cell)) (hc : dc.contains cv.1 = true) :
    buildSetItems dc (cv :: rest) ≠ [] := by
  rw [buildSetItems, if_pos hc]
  simp

/-! ## Row-step lemmas -/

lemma any_true_iff_mem (rows : List Registro) (k : String) :
    rows.any (·.codigo == k) = true ↔ k ∈ rows.map (·.codigo) := by
  simp

lemma stepRow_cases (hs : List String) (cm : List (String × String)) (cc : String)
    (dc : List String) (s : Store) (row : List Cell) :
    (rowKeyOf hs cc row = none ∧ stepRow hs cm cc dc s row = (.inl .skp, s)) ∨
    (∃ k, rowKeyOf hs cc row = some k ∧ s.rows.any (·.codigo == k) = false ∧
      stepRow hs cm cc dc s row =
        (.inl .ins, { s with rows := s.rows ++ [⟨k, buildInsertItems dc (changeSet hs cm row)⟩] })) ∨
    (∃ k, rowKeyOf hs cc row = some k ∧ s.rows.any (·.codigo == k) = true ∧
      (stepRow hs cm cc dc s row = (.inl .skp, s) ∨
       (∃ e, stepRow hs cm cc dc s row = (.inr e, s)) ∨
       (∃ rows', sqlUpdate s.rows k (desome (buildSetItems dc (changeSet hs cm row))) = .ok rows' ∧
         changeSet hs cm row ≠ [] ∧
         stepRow hs cm cc dc s row = (.inl .upd, { s with rows := rows' })))) := by
  rcases hk : rowKeyOf hs cc row with _ | k
  · exact Or.inl ⟨rfl, by simp [stepRow, hk]⟩
  · cases hex : s.rows.any (·.codigo == k) with
    | false =>
      refine Or.inr (Or.inl ⟨k, rfl, hex, ?_⟩)
      simp [stepRow, hk, hex]
    | true =>
      refine Or.inr (Or.inr ⟨k, rfl, hex, ?_⟩)
      by_cases hcs : changeSet hs cm row = []
      · exact Or.inl (by simp [stepRow, hk, hex, hcs])
      · by_cases hitems : buildSetItems dc (changeSet hs cm row) = []
        · exact Or.inl (by simp [stepRow, hk, hex, hcs, hitems])
        · by_cases hnone : (buildSetItems dc (changeSet hs cm row)).any (·.2 == none) = true
          · exact Or.inr (Or.inl ⟨.bindingMismatch, by simp [stepRow, hk, hex, hcs, hitems, hnone]⟩)
          · rcases hsql : sqlUpdate s.rows k (desome (buildSetItems dc (changeSet hs cm row))) with e | rows'
            · exact Or.inr (Or.inl ⟨.constraintViolation,
                by simp [stepRow, hk, hex, hcs, hitems, hnone, hsql]⟩)
            · exact Or.inr (Or.inr ⟨rows', by first | exact hsql | rfl, hcs,
                by simp [stepRow, hk, hex, hcs, hitems, hnone, hsql]⟩)

/-- The sets actually applied by an update never target the key
column. -/
lemma update_sets_no_codigo (hs : List String) (cm : List (String × String))
    (dc : List String) (row : List Cell) :
    ∀ p ∈ desome (buildSetItems dc (changeSet hs cm row)), p.1 ≠ "codigo" := by
  intro p hp
  have h1 := desome_sub _ p hp
  obtain ⟨q, hq, he⟩ := List.mem_map.mp h1
  have h2 := buildSetItems_sub dc (changeSet hs cm row) q hq
  obtain ⟨q2, hq2, he2⟩ := List.mem_map.mp h2
  rw [← he, ← he2]
  exact changeSet_no_codigo hs cm row q2 hq2

/-- Row processing never touches the schema. -/
lemma stepRow_schema (hs : List String) (cm : List (String × String)) (cc : String)
    (dc : List String) (s : Store) (row : List Cell) :
    ((stepRow hs cm cc dc s row).2).schema = s.schema := by
  rcases stepRow_cases hs cm cc dc s row with ⟨_, he⟩ | ⟨k, _, _, he⟩ |
    ⟨k, _, _, he | ⟨e, he⟩ | ⟨rows', _, _, he⟩⟩ <;> rw [he]

/-- How row processing changes the key list: not at all, or by
appending a fresh key that was inserted. -/
lemma stepRow_keysOf (hs : List String) (cm : List (String × String)) (cc : String)
    (dc : List String) (s : Store) (row : List Cell) :
    keysOf (stepRow hs cm cc dc s row).2 = keysOf s ∨
    (∃ k, rowKeyOf hs cc row = some k ∧ s.rows.any (·.codigo == k) = false ∧
      keysOf (stepRow hs cm cc dc s row).2 = keysOf s ++ [k] ∧
      (stepRow hs cm cc dc s row).1 = .inl .ins) := by
  rcases stepRow_cases hs cm cc dc s row with ⟨_, he⟩ | ⟨k, hk, hex, he⟩ |
    ⟨k, hk, hex, he | ⟨e, he⟩ | ⟨rows', hsql, _, he⟩⟩
  · exact Or.inl (by rw [he])
  · refine Or.inr ⟨k, hk, hex, ?_, by rw [he]⟩
    rw [he]
    simp [keysOf]
  · exact Or.inl (by rw [he])
  · exact Or.inl (by rw [he])
  · refine Or.inl ?_
    rw [he]
    show rows'.map (·.codigo) = keysOf s
    exact sqlUpdate_keys_eq s.rows k _ rows' (update_sets_no_codigo hs cm dc row) hsql

/-- After processing a row carrying key `k`, the store has a record
keyed `k`. -/
lemma stepRow_key_mem (hs : List String) (cm : List (String × String)) (cc : String)
    (dc : List String) (s : Store) (row : List Cell) (k : String)
    (hk : rowKeyOf hs cc row = some k) :
    k ∈ keysOf (stepRow hs cm cc dc s row).2 := by
  rcases stepRow_keysOf hs cm cc dc s row with he | ⟨k2, hk2, hex2, he, _⟩
  · rw [he]
    rcases stepRow_cases hs cm cc dc s row with ⟨hn, _⟩ | ⟨k2, hk2, hex2, _⟩ |
      ⟨k2, hk2, hex2, _⟩
    · rw [hk] at hn; cases hn
    · rw [hk] at hk2
      cases hk2
      -- fresh insert case: keys changed, contradiction handled below
      rcases stepRow_cases hs cm cc dc s row with ⟨hn, _⟩ | ⟨k3, hk3, hex3, hst⟩ |
        ⟨k3, hk3, hex3, _⟩
      · rw [hk] at hn; cases hn
      · rw [hk] at hk3
        cases hk3
        rw [hst] at he
        simp [keysOf] at he
      · rw [hk] at hk3
        cases hk3
        exact (any_true_iff_mem s.rows k).mp hex3
    · rw [hk] at hk2
      cases hk2
      exact (any_true_iff_mem s.rows k).mp hex2
  · rw [hk] at hk2
    cases hk2
    rw [he]
    simp

/-- A row whose key already exists is never counted as inserted. -/
lemma stepRow_not_ins (hs : List String) (cm : List (String × String)) (cc : String)
    (dc : List String) (s : Store) (row : List Cell) (k : String)
    (hk : rowKeyOf hs cc row = some k)
    (hex : s.rows.any (·.codigo == k) = true) :
    (stepRow hs cm cc dc s row).1 ≠ Sum.inl Bucket.ins := by
  rcases stepRow_cases hs cm cc dc s row with ⟨hn, _⟩ | ⟨k2, hk2, hex2, he⟩ |
    ⟨k2, hk2, hex2, he | ⟨e, he⟩ | ⟨rows', _, _, he⟩⟩
  · rw [hk] at hn; cases hn
  · rw [hk] at hk2; cases hk2; rw [hex] at hex2; cases hex2
  · rw [he]; simp
  · rw [he]; simp
  · rw [he]; simp

/-- A row with a fresh key is always counted as inserted. -/
lemma stepRow_ins_of_fresh (hs : List String) (cm : List (String × String)) (cc : String)
    (dc : List String) (s : Store) (row : List Cell) (k : String)
    (hk : rowKeyOf hs cc row = some k)
    (hex : s.rows.any (·.codigo == k) = false) :
    (stepRow hs cm cc dc s row).1 = Sum.inl Bucket.ins := by
  have : stepRow hs cm cc dc s row =
      (.inl .ins, { s with rows := s.rows ++ [⟨k, buildInsertItems dc (changeSet hs cm row)⟩] }) := by
    simp [stepRow, hk, hex]
  rw [this]

/-- Row processing preserves key uniqueness. -/
lemma stepRow_nodup (hs : List String) (cm : List (String × String)) (cc : String)
    (dc : List String) (s : Store) (row : List Cell)
    (hd : distinctB (keysOf s) = true) :
    distinctB (keysOf (stepRow hs cm cc dc s row).2) = true := by
  rcases stepRow_keysOf hs cm cc dc s row with he | ⟨k, hk, hex, he, _⟩
  · rw [he]; exact hd
  · rw [he, distinctB_iff, List.nodup_append]
    have hnm : k ∉ keysOf s := by
      intro hm
      rw [(any_true_iff_mem s.rows k).mpr hm] at hex
      cases hex
    refine ⟨(distinctB_iff _).mp hd, List.nodup_singleton k, ?_⟩
    intro x hx hk2
    rw [List.mem_singleton] at hk2
    exact hnm (hk2 ▸ hx)

/-! ## Batch-loop lemmas -/

lemma stepRow_keys_mono (hs : List String) (cm : List (String × String)) (cc : String)
    (dc : List String) (s : Store) (row : List Cell) (k : String)
    (hm : k ∈ keysOf s) :
    k ∈ keysOf (stepRow hs cm cc dc s row).2 := by
  rcases stepRow_keysOf hs cm cc dc s row with he | ⟨k2, _, _, he, _⟩
  · rw [he]; exact hm
  · rw [he]
    exact List.mem_append_left _ hm

lemma stepRow_keys_new (hs : List String) (cm : List (String × String)) (cc : String)
    (dc : List String) (s : Store) (row : List Cell) (k : String)
    (hm : k ∈ keysOf (stepRow hs cm cc dc s row).2) :
    k ∈ keysOf s ∨ rowKeyOf hs cc row = some k := by
  rcases stepRow_keysOf hs cm cc dc s row with he | ⟨k2, hk2, _, he, _⟩
  · rw [he] at hm; exact Or.inl hm
  · rw [he] at hm
    rcases List.mem_append.mp hm with h | h
    · exact Or.inl h
    · rw [List.mem_singleton] at h
      exact Or.inr (h ▸ hk2)

lemma runRows_sum (hs : List String) (cm : List (String × String)) (cc : String)
    (dc : List String) :
    ∀ (rows : List (List Cell)) (s : Store),
      (runRows hs cm cc dc s rows).2.2 = none →
      (runRows hs cm cc dc s rows).1.1 + (runRows hs cm cc dc s rows).1.2.1 +
        (runRows hs cm cc dc s rows).1.2.2 = rows.length := by
  intro rows
  induction rows with
  | nil => intro s _; simp [runRows]
  | cons row rest ih =>
    intro s herr
    rcases hstep : stepRow hs cm cc dc s row with ⟨sb, s'⟩
    cases sb with
    | inl b =>
      rcases hr : runRows hs cm cc dc s' rest with ⟨⟨i, u, g⟩, st, e⟩
      have hrw : runRows hs cm cc dc s (row :: rest) = (bump b (i, u, g), st, e) := by
        simp [runRows, hstep, hr]
      rw [hrw] at herr ⊢
      have hsum := ih s'
      rw [hr] at hsum
      have hsum' := hsum (by simpa using herr)
      simp only at hsum'
      cases b <;> simp only [bump] <;> simp <;> omega
    | inr e =>
      have hrw : runRows hs cm cc dc s (row :: rest) = ((0, 0, 0), s', some e) := by
        simp [runRows, hstep]
      rw [hrw] at herr
      simp at herr

lemma runRows_schema (hs : List String) (cm : List (String × String)) (cc : String)
    (dc : List String) :
    ∀ (rows : List (List Cell)) (s : Store),
      ((runRows hs cm cc dc s rows).2.1).schema = s.schema := by
  intro rows
  induction rows with
  | nil => intro s; simp [runRows]
  | cons row rest ih =>
    intro s
    rcases hstep : stepRow hs cm cc dc s row with ⟨sb, s'⟩
    have hsch : s'.schema = s.schema := by
      have := stepRow_schema hs cm cc dc s row
      rw [hstep] at this
      exact this
    cases sb with
    | inl b =>
      have hrw : (runRows hs cm cc dc s (row :: rest)).2.1 =
          (runRows hs cm cc dc s' rest).2.1 := by
        simp [runRows, hstep]
      rw [hrw, ih s', hsch]
    | inr e =>
      have hrw : (runRows hs cm cc dc s (row :: rest)).2.1 = s' := by
        simp [runRows, hstep]
      rw [hrw, hsch]

lemma runRows_nodup (hs : List String) (cm : List (String × String)) (cc : String)
    (dc : List String) :
    ∀ (rows : List (List Cell)) (s : Store),
      distinctB (keysOf s) = true →
      distinctB (keysOf (runRows hs cm cc dc s rows).2.1) = true := by
  intro rows
  induction rows with
  | nil => intro s hd; simpa [runRows] using hd
  | cons row rest ih =>
    intro s hd
    rcases hstep : stepRow hs cm cc dc s row with ⟨sb, s'⟩
    have hd' : distinctB (keysOf s') = true := by
      have := stepRow_nodup hs cm cc dc s row hd
      rw [hstep] at this
      exact this
    cases sb with
    | inl b =>
      have hrw : (runRows hs cm cc dc s (row :: rest)).2.1 =
          (runRows hs cm cc dc s' rest).2.1 := by
        simp [runRows, hstep]
      rw [hrw]
      exact ih s' hd'
    | inr e =>
      have hrw : (runRows hs cm cc dc s (row :: rest)).2.1 = s' := by
        simp [runRows, hstep]
      rw [hrw]
      exact hd'

lemma runRows_key_persist (hs : List String) (cm : List (String × String)) (cc : String)
    (dc : List String) :
    ∀ (rows : List (List Cell)) (s : Store) (k : String),
      k ∈ keysOf s → k ∈ keysOf (runRows hs cm cc dc s rows).2.1 := by
  intro rows
  induction rows with
  | nil => intro s k hm; simpa [runRows] using hm
  | cons row rest ih =>
    intro s k hm
    rcases hstep : stepRow hs cm cc dc s row with ⟨sb, s'⟩
    have hm' : k ∈ keysOf s' := by
      have := stepRow_keys_mono hs cm cc dc s row k hm
      rw [hstep] at this
      exact this
    cases sb with
    | inl b =>
      have hrw : (runRows hs cm cc dc s (row :: rest)).2.1 =
          (runRows hs cm cc dc s' rest).2.1 := by
        simp [runRows, hstep]
      rw [hrw]
      exact ih s' k hm'
    | inr e =>
      have hrw : (runRows hs cm cc dc s (row :: rest)).2.1 = s' := by
        simp [runRows, hstep]
      rw [hrw]
      exact hm'

lemma rowTrace_length (hs : List String) (cm : List (String × String)) (cc : String)
    (dc : List String) :
    ∀ (rows : List (List Cell)) (s : Store),
      (runRows hs cm cc dc s rows).2.2 = none →
      (rowTrace hs cm cc dc s rows).length = rows.length := by
  intro rows
  induction rows with
  | nil => intro s _; simp [rowTrace]
  | cons row rest ih =>
    intro s herr
    rcases hstep : stepRow hs cm cc dc s row with ⟨sb, s'⟩
    cases sb with
    | inl b =>
      have herr' : (runRows hs cm cc dc s' rest).2.2 = none := by
        have hrw : (runRows hs cm cc dc s (row :: rest)).2.2 =
            (runRows hs cm cc dc s' rest).2.2 := by
          simp [runRows, hstep]
        rw [hrw] at herr
        exact herr
      have hrw2 : rowTrace hs cm cc dc s (row :: rest) =
          b :: rowTrace hs cm cc dc s' rest := by
        simp [rowTrace, hstep]
      rw [hrw2]
      simp [ih s' herr']
    | inr e =>
      have hrw : (runRows hs cm cc dc s (row :: rest)).2.2 = some e := by
        simp [runRows, hstep]
      rw [hrw] at herr
      cases herr

/-! ## C1: non-destructive partial merge -/

lemma get_map_registro (l : List Registro) (fn : Registro → Registro) (i : Nat)
    (h1 : i < l.length) (h2 : i < (l.map fn).length) :
    (l.map fn).get ⟨i, h2⟩ = fn (l.get ⟨i, h1⟩) := by
  simp [List.get_eq_getElem, List.getElem_map]

/-- Claim C1 (confirmed).  For a row whose (non-blank) key matches an
existing record: a row whose change-set — the present, non-key values —
is empty is counted as skipped and leaves the store entirely unchanged;
whatever the outcome, every column outside the change-set keeps its
stored value in the matched record, the row count is unchanged, and
records with other keys are untouched. -/
theorem stepRow_nondestructive (hs : List String) (colmap : List (String × String))
    (codigoCol : String) (dbCols : List String) (s : Store) (row : List Cell) (k : String)
    (hk : rowKeyOf hs codigoCol row = some k)
    (hex : s.rows.any (·.codigo == k) = true) :
    (changeSet hs colmap row = [] →
      stepRow hs colmap codigoCol dbCols s row = (.inl .skp, s)) ∧
    (∀ f, f ∉ (changeSet hs colmap row).map Prod.fst →
      storeGet (stepRow hs colmap codigoCol dbCols s row).2 k f = storeGet s k f) ∧
    (stepRow hs colmap codigoCol dbCols s row).2.rows.length = s.rows.length ∧
    (∀ i (h1 : i < s.rows.length)
        (h2 : i < (stepRow hs colmap codigoCol dbCols s row).2.rows.length),
      (s.rows.get ⟨i, h1⟩).codigo ≠ k →
      (stepRow hs colmap codigoCol dbCols s row).2.rows.get ⟨i, h2⟩ = s.rows.get ⟨i, h1⟩) := by
  have hstore : (stepRow hs colmap codigoCol dbCols s row).2 = s ∨
      ∃ rows',
        sqlUpdate s.rows k (desome (buildSetItems dbCols (changeSet hs colmap row))) =
          .ok rows' ∧
        (stepRow hs colmap codigoCol dbCols s row).2 = { s with rows := rows' } := by
    rcases stepRow_cases hs colmap codigoCol dbCols s row with ⟨hn, _⟩ |
      ⟨k2, hk2, hex2, _⟩ | ⟨k2, hk2, hex2, he | ⟨e, he⟩ | ⟨rows', hsql, _, he⟩⟩
    · rw [hk] at hn; cases hn
    · rw [hk] at hk2; cases hk2; rw [hex] at hex2; cases hex2
    · exact Or.inl (by rw [he])
    · exact Or.inl (by rw [he])
    · rw [hk] at hk2; cases hk2
      exact Or.inr ⟨rows', hsql, by rw [he]⟩
  refine ⟨fun hcs => by simp [stepRow, hk, hex, hcs], ?_, ?_, ?_⟩
  · intro f hf
    rcases hstore with he | ⟨rows', hsql, he⟩
    · rw [he]
    · rw [he]
      obtain ⟨hre, _⟩ := sqlUpdate_ok_rows s.rows k _ rows' hsql
      have hnc := update_sets_no_codigo hs colmap dbCols row
      have hfn : ∀ r : Registro,
          ((fun r => if r.codigo == k then
              applySets (desome (buildSetItems dbCols (changeSet hs colmap row))) r
            else r) r).codigo = r.codigo := by
        intro r
        by_cases hr : (r.codigo == k) = true
        · simp only [hr, if_true]
          exact applySets_codigo _ r hnc
        · simp [hr]
      have hsub : ∀ p ∈ desome (buildSetItems dbCols (changeSet hs colmap row)),
          p.1 ∈ (changeSet hs colmap row).map Prod.fst := by
        intro p hp2
        have h1 := desome_sub _ p hp2
        obtain ⟨q, hq, heq⟩ := List.mem_map.mp h1
        have h2 := buildSetItems_sub dbCols _ q hq
        rw [← heq]
        exact h2
      show storeGet { s with rows := rows' } k f = storeGet s k f
      unfold storeGet
      simp only
      rw [hre, find?_map_pres s.rows k _ hfn]
      cases hfind : s.rows.find? (·.codigo == k) with
      | none => rfl
      | some r =>
        simp only [Option.map_some']
        have hp : (r.codigo == k) = true := by
          simpa using List.find?_some hfind
        rw [if_pos hp]
        have hnf : ∀ p ∈ desome (buildSetItems dbCols (changeSet hs colmap row)),
            p.1 ≠ f := by
          intro p hp2 he2
          exact hf (he2 ▸ hsub p hp2)
        rw [applySets_lookup _ r f hnf]
  · rcases hstore with he | ⟨rows', hsql, he⟩
    · rw [he]
    · rw [he]
      obtain ⟨hre, _⟩ := sqlUpdate_ok_rows s.rows k _ rows' hsql
      rw [hre]
      simp
  · rcases hstore with he | ⟨rows', hsql, he⟩
    · rw [he]
      intro i h1 h2 _
      rfl
    · rw [he]
      obtain ⟨hre, _⟩ := sqlUpdate_ok_rows s.rows k _ rows' hsql
      subst hre
      intro i h1 h2 hne
      rw [get_map_registro s.rows _ i h1 h2]
      rw [if_neg (by simpa using hne)]

/-- Witness for C1: re-importing `A1` with a whitespace quantity and a
missing product is skipped and changes nothing. -/
theorem stepRow_nondestructive_witness :
    stepRow hsCQP colmapCQP "codigo" dbColsInit storeA rowBlankA1 = (.inl .skp, storeA) :=
  (stepRow_nondestructive hsCQP colmapCQP "codigo" dbColsInit storeA rowBlankA1 "A1"
    (by decide) (by decide)).1 (by decide)

/-! ## C9: the update primitive writes only schema columns -/

/-- Claim C9 (confirmed).  `update_single_record` never grows the schema
and never writes to a column outside it: a successful call keeps the
schema and the row count, and every field name absent from the schema
reads unchanged in every record; a mapping containing only unknown
fields is rejected outright (`False`, store unchanged).  Row processing
in the import likewise never touches the schema — growing it is
exclusively `ensure_table_and_columns`'s doing. -/
theorem update_single_record_schema_safe :
    (∀ (s : Store) (cod : String) (updates : List (String × Value)) (st : Store) (b : Bool),
        update_single_record s cod updates = .ok (st, b) →
        st.schema = s.schema ∧ st.rows.length = s.rows.length ∧
        ∀ f, f ∉ s.schema.map Prod.fst →
          ∀ i (h1 : i < s.rows.length) (h2 : i < st.rows.length),
            (st.rows.get ⟨i, h2⟩).fields.lookup f = (s.rows.get ⟨i, h1⟩).fields.lookup f) ∧
    (∀ (s : Store) (cod : String) (updates : List (String × Value)),
        updates ≠ [] → (∀ p ∈ updates, p.1 ∉ s.schema.map Prod.fst) →
        update_single_record s cod updates = .ok (s, false)) ∧
    (∀ (hs : List String) (cm : List (String × String)) (cc : String) (dc : List String)
        (s : Store) (row : List Cell),
        ((stepRow hs cm cc dc s row).2).schema = s.schema) := by
  refine ⟨?_, ?_, fun hs cm cc dc s row => stepRow_schema hs cm cc dc s row⟩
  · intro s cod updates st b hok
    unfold update_single_record at hok
    by_cases hup : updates = []
    · rw [if_pos hup] at hok
      cases hok
      exact ⟨rfl, rfl, fun f _ i h1 h2 => rfl⟩
    · rw [if_neg hup] at hok
      by_cases hfil : updates.filter
          (fun p => (s.schema.map (·.1)).contains p.1) = []
      · rw [if_pos hfil] at hok
        cases hok
        exact ⟨rfl, rfl, fun f _ i h1 h2 => rfl⟩
      · rw [if_neg hfil] at hok
        rcases hsql : sqlUpdate s.rows cod
            (updates.filter (fun p => (s.schema.map (·.1)).contains p.1)) with e | rows'
        · rw [hsql] at hok; cases hok
        · rw [hsql] at hok
          cases hok
          obtain ⟨hre, _⟩ := sqlUpdate_ok_rows s.rows cod _ rows' hsql
          refine ⟨rfl, by rw [hre]; simp, ?_⟩
          intro f hf i h1 h2
          have hnf : ∀ p ∈ updates.filter
              (fun p => (s.schema.map (·.1)).contains p.1), p.1 ≠ f := by
            intro p hp he
            have := List.of_mem_filter hp
            rw [he] at this
            exact hf (by simpa using this)
          subst hre
          rw [get_map_registro s.rows _ i h1 h2]
          by_cases hr : ((s.rows.get ⟨i, h1⟩).codigo == cod) = true
          · rw [if_pos hr]
            exact applySets_lookup _ _ f hnf
          · rw [if_neg hr]
  · intro s cod updates hne hall
    unfold update_single_record
    rw [if_neg hne]
    have hfil : updates.filter (fun p => (s.schema.map (·.1)).contains p.1) = [] := by
      rw [List.filter_eq_nil_iff]
      intro p hp
      simpa using hall p hp
    simp only []
    rw [hfil]
    simp

/-- Witness for C9: an update naming only the unknown column `nope` is
rejected — `False` result and untouched store. -/
theorem update_single_record_schema_safe_witness :
    update_single_record storeA "A1" [("nope", Value.text "v")] = .ok (storeA, false) :=
  update_single_record_schema_safe.2.1 storeA "A1" [("nope", Value.text "v")]
    (by decide) (by decide)

/-! ## C7: key uniqueness and immutability -/

/-- Claim C7 (amended).  The uniqueness half holds: any import and any
successful `update_single_record` call preserve "no two records share a
codigo" (the import inserts only keys absent from the live store; the
UPDATE statement aborts on a primary-key violation); and the import
explicitly excludes `codigo` from every update change-set, so imports
never modify a key.  The immutability half fails for the manual update
primitive: an updates mapping that itself contains the `codigo` field
renames the record's key (see the counterexample). -/
theorem key_uniqueness_and_import_key_exclusion :
    (∀ (s : Store) (t : Table), distinctB (keysOf s) = true →
        distinctB (keysOf (import_excel_inteligente s t).store) = true) ∧
    (∀ (s : Store) (cod : String) (updates : List (String × Value)) (st : Store) (b : Bool),
        distinctB (keysOf s) = true →
        update_single_record s cod updates = .ok (st, b) →
        distinctB (keysOf st) = true) ∧
    (∀ (hs : List String) (cm : List (String × String)) (row : List Cell),
        ∀ p ∈ changeSet hs cm row, p.1 ≠ "codigo") := by
  refine ⟨?_, ?_, fun hs cm row => changeSet_no_codigo hs cm row⟩
  · intro s t hd
    unfold import_excel_inteligente
    rcases hcm : buildColmap (dedupFirst (t.headers.map pyStrip)) with e | colmap
    · simp only [hcm]
      simpa [keysOf] using hd
    · simp only [hcm]
      rcases hcc : (colmap.filter (fun p => p.2 == "codigo")).map (·.1) with _ | ⟨c0, crest⟩
      · simp only [hcc]
        simpa [keysOf] using hd
      · simp only [hcc]
        by_cases hes : (ensure_table_and_columns s.schema
            (colmap.map (fun p => (p.2, if p.2 = "qtde" then "INTEGER" else "TEXT")))).2 = true
        · rw [if_pos hes]
          refine runRows_nodup _ _ _ _ t.rows _ ?_
          simpa [keysOf] using hd
        · rw [if_neg hes]
          simpa [keysOf] using hd
  · intro s cod updates st b hd hok
    unfold update_single_record at hok
    by_cases hup : updates = []
    · rw [if_pos hup] at hok
      cases hok
      exact hd
    · rw [if_neg hup] at hok
      by_cases hfil : updates.filter
          (fun p => (s.schema.map (·.1)).contains p.1) = []
      · rw [if_pos hfil] at hok
        cases hok
        exact hd
      · rw [if_neg hfil] at hok
        rcases hsql : sqlUpdate s.rows cod
            (updates.filter (fun p => (s.schema.map (·.1)).contains p.1)) with e | rows'
        · rw [hsql] at hok; cases hok
        · rw [hsql] at hok
          cases hok
          exact (sqlUpdate_ok_rows s.rows cod _ rows' hsql).2

/-- Claim C7 (counterexample).  An updates mapping containing the key
field renames the record: the store that held key `A` now holds key
`B`, so the key of an existing record was modified by an update. -/
theorem update_single_record_renames_key :
    update_single_record storeOneA "A" [("codigo", Value.text "B")] =
      .ok (⟨initialSchema, [⟨"B", []⟩]⟩, true) ∧
    keysOf storeOneA = ["A"] := by
  exact ⟨rfl, rfl⟩

/-- Witness for C7: importing a sheet with one fresh key and one
blank-key row keeps the key list duplicate-free. -/
theorem key_uniqueness_witness :
    distinctB (keysOf (import_excel_inteligente storeA tInsertTwo).store) = true :=
  key_uniqueness_and_import_key_exclusion.1 storeA tInsertTwo (by decide)

/-! ## C4: counter partition -/

lemma stepRow_not_skp_of_nonempty (hs : List String) (cm : List (String × String))
    (cc : String) (dc : List String) (s : Store) (row : List Cell) (k : String)
    (cov : ∀ p ∈ changeSet hs cm row, dc.contains p.1 = true)
    (hk : rowKeyOf hs cc row = some k)
    (hex : s.rows.any (·.codigo == k) = true)
    (hcs : changeSet hs cm row ≠ []) :
    (stepRow hs cm cc dc s row).1 ≠ Sum.inl Bucket.skp := by
  have hitems : buildSetItems dc (changeSet hs cm row) ≠ [] := by
    rcases hcse : changeSet hs cm row with _ | ⟨cv, rest⟩
    · exact absurd hcse hcs
    · exact buildSetItems_ne_nil dc cv rest (cov cv (by rw [hcse]; exact List.mem_cons_self _ _))
  by_cases hnone : (buildSetItems dc (changeSet hs cm row)).any (·.2 == none) = true
  · have he : stepRow hs cm cc dc s row = (.inr .bindingMismatch, s) := by
      simp [stepRow, hk, hex, hcs, hitems, hnone]
    rw [he]
    simp
  · rcases hsql : sqlUpdate s.rows k (desome (buildSetItems dc (changeSet hs cm row)))
      with e | rows'
    · have he : stepRow hs cm cc dc s row = (.inr .constraintViolation, s) := by
        simp [stepRow, hk, hex, hcs, hitems, hnone, hsql]
      rw [he]
      simp
    · have he : stepRow hs cm cc dc s row = (.inl .upd, { s with rows := rows' }) := by
        simp [stepRow, hk, hex, hcs, hitems, hnone, hsql]
      rw [he]
      simp

lemma stepRow_upd_of_applicable (hs : List String) (cm : List (String × String))
    (cc : String) (dc : List String) (s : Store) (row : List Cell) (k : String)
    (cov : ∀ p ∈ changeSet hs cm row, dc.contains p.1 = true)
    (herr : ∀ e, (stepRow hs cm cc dc s row).1 ≠ Sum.inr e)
    (hk : rowKeyOf hs cc row = some k)
    (hex : s.rows.any (·.codigo == k) = true)
    (hcs : changeSet hs cm row ≠ []) :
    (stepRow hs cm cc dc s row).1 = Sum.inl Bucket.upd := by
  have hitems : buildSetItems dc (changeSet hs cm row) ≠ [] := by
    rcases hcse : changeSet hs cm row with _ | ⟨cv, rest⟩
    · exact absurd hcse hcs
    · exact buildSetItems_ne_nil dc cv rest (cov cv (by rw [hcse]; exact List.mem_cons_self _ _))
  by_cases hnone : (buildSetItems dc (changeSet hs cm row)).any (·.2 == none) = true
  · have he : stepRow hs cm cc dc s row = (.inr .bindingMismatch, s) := by
      simp [stepRow, hk, hex, hcs, hitems, hnone]
    exact absurd (show (stepRow hs cm cc dc s row).1 = Sum.inr Err.bindingMismatch by rw [he])
      (herr .bindingMismatch)
  · rcases hsql : sqlUpdate s.rows k (desome (buildSetItems dc (changeSet hs cm row)))
      with e | rows'
    · have he : stepRow hs cm cc dc s row = (.inr .constraintViolation, s) := by
        simp [stepRow, hk, hex, hcs, hitems, hnone, hsql]
      exact absurd (show (stepRow hs cm cc dc s row).1 = Sum.inr Err.constraintViolation by rw [he])
        (herr .constraintViolation)
    · have he : stepRow hs cm cc dc s row = (.inl .upd, { s with rows := rows' }) := by
        simp [stepRow, hk, hex, hcs, hitems, hnone, hsql]
      rw [he]

/-- Claim C4 (amended).  On every import that runs to completion without
raising, `inserted + updated + ignored` equals the number of data rows;
and per row: a row is inserted exactly when its non-blank key is absent
from the live store; skipped exactly when its key is blank or its key
pre-exists with an empty change-set; updated exactly when its key
pre-exists and the change-set is non-empty (given that the evolved
schema covers the change-set columns and the row raised no exception).
The unamended claim — the partition for *every* table with a key
column — fails: an import aborted by the quantity-coercion defect
returns no counters at all (see the counterexample). -/
theorem import_counters_partition :
    (∀ (s : Store) (t : Table),
        (import_excel_inteligente s t).err = none →
        (import_excel_inteligente s t).inserted + (import_excel_inteligente s t).updated +
          (import_excel_inteligente s t).ignored = t.rows.length) ∧
    (∀ (hs : List String) (cm : List (String × String)) (cc : String) (dc : List String)
        (s : Store) (row : List Cell),
        ((stepRow hs cm cc dc s row).1 = Sum.inl Bucket.ins ↔
          ∃ k, rowKeyOf hs cc row = some k ∧ s.rows.any (·.codigo == k) = false)) ∧
    (∀ (hs : List String) (cm : List (String × String)) (cc : String) (dc : List String)
        (s : Store) (row : List Cell),
        (∀ p ∈ changeSet hs cm row, dc.contains p.1 = true) →
        ((stepRow hs cm cc dc s row).1 = Sum.inl Bucket.skp ↔
          rowKeyOf hs cc row = none ∨
            ∃ k, rowKeyOf hs cc row = some k ∧ s.rows.any (·.codigo == k) = true ∧
              changeSet hs cm row = [])) ∧
    (∀ (hs : List String) (cm : List (String × String)) (cc : String) (dc : List String)
        (s : Store) (row : List Cell),
        (∀ p ∈ changeSet hs cm row, dc.contains p.1 = true) →
        (∀ e, (stepRow hs cm cc dc s row).1 ≠ Sum.inr e) →
        ((stepRow hs cm cc dc s row).1 = Sum.inl Bucket.upd ↔
          ∃ k, rowKeyOf hs cc row = some k ∧ s.rows.any (·.codigo == k) = true ∧
            changeSet hs cm row ≠ [])) := by
  refine ⟨?_, ?_, ?_, ?_⟩
  · intro s t herr
    unfold import_excel_inteligente at herr ⊢
    rcases hcm : buildColmap (dedupFirst (t.headers.map pyStrip)) with e | colmap
    · simp [hcm] at herr
    · simp only [hcm] at herr ⊢
      rcases hcc : (colmap.filter (fun p => p.2 == "codigo")).map (·.1) with _ | ⟨c0, crest⟩
      · simp [hcc] at herr
      · simp only [hcc] at herr ⊢
        by_cases hes : (ensure_table_and_columns s.schema
            (colmap.map (fun p => (p.2, if p.2 = "qtde" then "INTEGER" else "TEXT")))).2 = true
        · rw [if_pos hes] at herr ⊢
          exact runRows_sum _ _ _ _ t.rows _ herr
        · rw [if_neg hes] at herr
          cases herr
  · intro hs cm cc dc s row
    constructor
    · intro hins
      rcases stepRow_cases hs cm cc dc s row with ⟨hn, he⟩ | ⟨k, hk, hex, he⟩ |
        ⟨k, hk, hex, he | ⟨e, he⟩ | ⟨rows', _, _, he⟩⟩
      · rw [he] at hins; cases hins
      · exact ⟨k, hk, hex⟩
      · rw [he] at hins; cases hins
      · rw [he] at hins; cases hins
      · rw [he] at hins; cases hins
    · rintro ⟨k, hk, hex⟩
      exact stepRow_ins_of_fresh hs cm cc dc s row k hk hex
  · intro hs cm cc dc s row cov
    constructor
    · intro hskp
      rcases hk : rowKeyOf hs cc row with _ | k
      · exact Or.inl rfl
      · cases hex : s.rows.any (·.codigo == k) with
        | false =>
          rw [stepRow_ins_of_fresh hs cm cc dc s row k hk hex] at hskp
          cases hskp
        | true =>
          by_cases hcs : changeSet hs cm row = []
          · exact Or.inr ⟨k, rfl, hex, hcs⟩
          · exact absurd hskp
              (stepRow_not_skp_of_nonempty hs cm cc dc s row k cov hk hex hcs)
    · rintro (hn | ⟨k, hk, hex, hcs⟩)
      · simp [stepRow, hn]
      · simp [stepRow, hk, hex, hcs]
  · intro hs cm cc dc s row cov herr
    constructor
    · intro hupd
      rcases stepRow_cases hs cm cc dc s row with ⟨hn, he⟩ | ⟨k, hk, hex, he⟩ |
        ⟨k, hk, hex, he | ⟨e, he⟩ | ⟨rows', _, hcs, he⟩⟩
      · rw [he] at hupd; cases hupd
      · rw [he] at hupd; cases hupd
      · rw [he] at hupd; cases hupd
      · rw [he] at hupd; cases hupd
      · exact ⟨k, hk, hex, hcs⟩
    · rintro ⟨k, hk, hex, hcs⟩
      exact stepRow_upd_of_applicable hs cm cc dc s row k cov herr hk hex hcs

/-- Claim C4 (counterexample).  A key-column sheet whose single row hits
the quantity-coercion defect makes the import raise instead of
returning counters — no partition of the rows into the three buckets is
reported. -/
theorem import_abort_loses_counters :
    (import_excel_inteligente storeA tAbortQtde).err = some Err.bindingMismatch ∧
    "codigo" ∈ tAbortQtde.headers := by
  exact ⟨by decide, by decide⟩

/-- Witness for C4: a two-row import (one insert, one blank key) counts
1 + 0 + 1 = 2 rows. -/
theorem import_counters_partition_witness :
    (import_excel_inteligente storeA tInsertTwo).inserted +
      (import_excel_inteligente storeA tInsertTwo).updated +
      (import_excel_inteligente storeA tInsertTwo).ignored = 2 :=
  import_counters_partition.1 storeA tInsertTwo (by decide)

/-! ## C10: duplicate keys within one batch -/

lemma count_one_of_distinct (rows : List Registro) (k : String)
    (hd : distinctB (rows.map (·.codigo)) = true)
    (hm : k ∈ rows.map (·.codigo)) :
    (rows.filter (fun r => r.codigo == k)).length = 1 := by
  induction rows with
  | nil => cases hm
  | cons r rest ih =>
    simp only [List.map_cons, distinctB, Bool.and_eq_true, Bool.not_eq_true'] at hd
    obtain ⟨hnc, hdrest⟩ := hd
    by_cases hr : (r.codigo == k) = true
    · have hrk : r.codigo = k := by simpa using hr
      have hnot : (rest.filter (fun r2 => r2.codigo == k)) = [] := by
        rw [List.filter_eq_nil_iff]
        intro r2 hr2 hbe
        have : k ∈ rest.map (·.codigo) := by
          refine List.mem_map.mpr ⟨r2, hr2, ?_⟩
          simpa using hbe
        rw [← hrk] at this
        rw [List.contains_eq_any_beq] at hnc
        simp only [List.any_eq_false, beq_iff_eq] at hnc
        exact hnc r.codigo this rfl
      simp [List.filter_cons, hr, hnot]
    · have hm' : k ∈ rest.map (·.codigo) := by
        rcases List.mem_cons.mp hm with he | hm2
        · exact absurd (by simpa using he.symm) hr
        · exact hm2
      simp only [List.filter_cons, hr, Bool.false_eq_true, if_false]
      exact ih hdrest hm'

lemma runRows_mem_of_rowkey (hs : List String) (cm : List (String × String)) (cc : String)
    (dc : List String) :
    ∀ (rows : List (List Cell)) (s : Store) (k : String) (i : Nat) (hi : i < rows.length),
      rowKeyOf hs cc (rows.get ⟨i, hi⟩) = some k →
      (runRows hs cm cc dc s rows).2.2 = none →
      k ∈ keysOf (runRows hs cm cc dc s rows).2.1 := by
  intro rows
  induction rows with
  | nil => intro s k i hi; cases hi
  | cons row rest ih =>
    intro s k i hi hk herr
    rcases hstep : stepRow hs cm cc dc s row with ⟨sb, s'⟩
    cases sb with
    | inr e =>
      have : (runRows hs cm cc dc s (row :: rest)).2.2 = some e := by
        simp [runRows, hstep]
      rw [this] at herr
      cases herr
    | inl b =>
      have hrw : (runRows hs cm cc dc s (row :: rest)).2.1 =
          (runRows hs cm cc dc s' rest).2.1 := by
        simp [runRows, hstep]
      have herr' : (runRows hs cm cc dc s' rest).2.2 = none := by
        have h2 : (runRows hs cm cc dc s (row :: rest)).2.2 =
            (runRows hs cm cc dc s' rest).2.2 := by
          simp [runRows, hstep]
        rw [h2] at herr
        exact herr
      rw [hrw]
      cases i with
      | zero =>
        have hk0 : rowKeyOf hs cc row = some k := by simpa using hk
        have hmem : k ∈ keysOf s' := by
          have := stepRow_key_mem hs cm cc dc s row k hk0
          rw [hstep] at this
          exact this
        exact runRows_key_persist hs cm cc dc rest s' k hmem
      | succ i2 =>
        have hi2 : i2 < rest.length := by
          simpa using Nat.lt_of_succ_lt_succ (by simpa using hi)
        exact ih s' k i2 hi2 (by simpa using hk) herr'

lemma rowTrace_get_ins (hs : List String) (cm : List (String × String)) (cc : String)
    (dc : List String) :
    ∀ (rows : List (List Cell)) (s : Store) (k : String) (i : Nat) (hi : i < rows.length),
      rowKeyOf hs cc (rows.get ⟨i, hi⟩) = some k →
      k ∉ keysOf s →
      (∀ i' (hi' : i' < rows.length), i' < i → rowKeyOf hs cc (rows.get ⟨i', hi'⟩) ≠ some k) →
      (runRows hs cm cc dc s rows).2.2 = none →
      ∀ (hti : i < (rowTrace hs cm cc dc s rows).length),
        (rowTrace hs cm cc dc s rows).get ⟨i, hti⟩ = Bucket.ins := by
  intro rows
  induction rows with
  | nil => intro s k i hi; cases hi
  | cons row rest ih =>
    intro s k i hi hk hfresh hfirst herr hti
    rcases hstep : stepRow hs cm cc dc s row with ⟨sb, s'⟩
    cases sb with
    | inr e =>
      have : (runRows hs cm cc dc s (row :: rest)).2.2 = some e := by
        simp [runRows, hstep]
      rw [this] at herr
      cases herr
    | inl b =>
      have htr : rowTrace hs cm cc dc s (row :: rest) =
          b :: rowTrace hs cm cc dc s' rest := by
        simp [rowTrace, hstep]
      have herr' : (runRows hs cm cc dc s' rest).2.2 = none := by
        have h2 : (runRows hs cm cc dc s (row :: rest)).2.2 =
            (runRows hs cm cc dc s' rest).2.2 := by
          simp [runRows, hstep]
        rw [h2] at herr
        exact herr
      cases i with
      | zero =>
        have hk0 : rowKeyOf hs cc row = some k := by simpa using hk
        have hfr : s.rows.any (·.codigo == k) = false := by
          cases ha : s.rows.any (·.codigo == k)
          · rfl
          · exact absurd ((any_true_iff_mem s.rows k).mp ha) hfresh
        have hb := stepRow_ins_of_fresh hs cm cc dc s row k hk0 hfr
        rw [hstep] at hb
        injection hb with hb2
        subst hb2
        rw [List.get_of_eq htr]
        rfl
      | succ i2 =>
        have hi2 : i2 < rest.length := by
          simpa using Nat.lt_of_succ_lt_succ (by simpa using hi)
        have hfresh' : k ∉ keysOf s' := by
          intro hm
          have hnew := stepRow_keys_new hs cm cc dc s row k (by rw [hstep]; exact hm)
          rcases hnew with h | h
          · exact hfresh h
          · exact hfirst 0 (by simp) (Nat.succ_pos _) (by simpa using h)
        have hfirst' : ∀ i' (hi' : i' < rest.length), i' < i2 →
            rowKeyOf hs cc (rest.get ⟨i', hi'⟩) ≠ some k := by
          intro i' hi' hlt
          have := hfirst (i' + 1) (by simpa using Nat.succ_lt_succ hi')
            (Nat.succ_lt_succ hlt)
          simpa using this
        rw [List.get_of_eq htr]
        exact ih s' k i2 hi2 (by simpa using hk) hfresh' hfirst' herr' _

lemma rowTrace_get_not_ins (hs : List String) (cm : List (String × String)) (cc : String)
    (dc : List String) :
    ∀ (rows : List (List Cell)) (s : Store) (k : String) (j : Nat) (hj : j < rows.length),
      rowKeyOf hs cc (rows.get ⟨j, hj⟩) = some k →
      (k ∈ keysOf s ∨
        ∃ i, ∃ hi : i < rows.length, i < j ∧ rowKeyOf hs cc (rows.get ⟨i, hi⟩) = some k) →
      (runRows hs cm cc dc s rows).2.2 = none →
      ∀ (htj : j < (rowTrace hs cm cc dc s rows).length),
        (rowTrace hs cm cc dc s rows).get ⟨j, htj⟩ ≠ Bucket.ins := by
  intro rows
  induction rows with
  | nil => intro s k j hj; cases hj
  | cons row rest ih =>
    intro s k j hj hk hin herr htj
    rcases hstep : stepRow hs cm cc dc s row with ⟨sb, s'⟩
    cases sb with
    | inr e =>
      have : (runRows hs cm cc dc s (row :: rest)).2.2 = some e := by
        simp [runRows, hstep]
      rw [this] at herr
      cases herr
    | inl b =>
      have htr : rowTrace hs cm cc dc s (row :: rest) =
          b :: rowTrace hs cm cc dc s' rest := by
        simp [rowTrace, hstep]
      have herr' : (runRows hs cm cc dc s' rest).2.2 = none := by
        have h2 : (runRows hs cm cc dc s (row :: rest)).2.2 =
            (runRows hs cm cc dc s' rest).2.2 := by
          simp [runRows, hstep]
        rw [h2] at herr
        exact herr
      cases j with
      | zero =>
        have hk0 : rowKeyOf hs cc row = some k := by simpa using hk
        have hmem : k ∈ keysOf s := by
          rcases hin with h | ⟨i, hi, hlt, _⟩
          · exact h
          · exact absurd hlt (Nat.not_lt_zero i)
        have hex : s.rows.any (·.codigo == k) = true :=
          (any_true_iff_mem s.rows k).mpr hmem
        have hni := stepRow_not_ins hs cm cc dc s row k hk0 hex
        rw [hstep] at hni
        rw [List.get_of_eq htr]
        intro hb
        exact hni (by rw [show b = Bucket.ins from hb])
      | succ j2 =>
        have hj2 : j2 < rest.length := by
          simpa using Nat.lt_of_succ_lt_succ (by simpa using hj)
        have hin' : k ∈ keysOf s' ∨
            ∃ i, ∃ hi : i < rest.length, i < j2 ∧
              rowKeyOf hs cc (rest.get ⟨i, hi⟩) = some k := by
          rcases hin with h | ⟨i, hi, hlt, hki⟩
          · refine Or.inl ?_
            have := stepRow_keys_mono hs cm cc dc s row k h
            rw [hstep] at this
            exact this
          · cases i with
            | zero =>
              refine Or.inl ?_
              have hk0 : rowKeyOf hs cc row = some k := by simpa using hki
              have := stepRow_key_mem hs cm cc dc s row k hk0
              rw [hstep] at this
              exact this
            | succ i2 =>
              refine Or.inr ⟨i2, by simpa using Nat.lt_of_succ_lt_succ (by simpa using hi), ?_, ?_⟩
              · exact Nat.lt_of_succ_lt_succ hlt
              · simpa using hki
        rw [List.get_of_eq htr]
        exact ih s' k j2 hj2 (by simpa using hk) hin' herr' _

/-- Claim C10 (amended).  On a batch that the import processes to
completion without raising: if a previously-unknown non-blank key
occurs in two rows `i < j`, the first occurrence is counted as inserted
(because the existence check runs per row against the live store),
every later occurrence is counted as updated or skipped but never
inserted, and the final store holds exactly one record with that key.
The unamended claim — duplicates *never* cause a failure — fails: a
later occurrence whose quantity cell is unparseable hits the
quantity-coercion defect only because the duplication routes it into
the update path, so the same batch that succeeds with one occurrence
raises with two (see the counterexample). -/
theorem duplicate_keys_one_record (hs : List String) (cm : List (String × String))
    (cc : String) (dc : List String) (rows : List (List Cell)) (s : Store) (k : String)
    (i j : Nat)
    (hd : distinctB (keysOf s) = true)
    (hfresh : k ∉ keysOf s)
    (hij : i < j) (hj : j < rows.length)
    (hki : rowKeyOf hs cc (rows.get ⟨i, lt_trans hij hj⟩) = some k)
    (hfirst : ∀ i' (hi' : i' < rows.length), i' < i →
      rowKeyOf hs cc (rows.get ⟨i', hi'⟩) ≠ some k)
    (hkj : rowKeyOf hs cc (rows.get ⟨j, hj⟩) = some k)
    (herr : (runRows hs cm cc dc s rows).2.2 = none) :
    (rowTrace hs cm cc dc s rows).length = rows.length ∧
    (∀ (hti : i < (rowTrace hs cm cc dc s rows).length),
      (rowTrace hs cm cc dc s rows).get ⟨i, hti⟩ = Bucket.ins) ∧
    (∀ (htj : j < (rowTrace hs cm cc dc s rows).length),
      (rowTrace hs cm cc dc s rows).get ⟨j, htj⟩ ≠ Bucket.ins) ∧
    ((runRows hs cm cc dc s rows).2.1.rows.filter (fun r => r.codigo == k)).length = 1 := by
  refine ⟨rowTrace_length hs cm cc dc rows s herr, ?_, ?_, ?_⟩
  · intro hti
    exact rowTrace_get_ins hs cm cc dc rows s k i (lt_trans hij hj) hki hfresh hfirst herr hti
  · intro htj
    exact rowTrace_get_not_ins hs cm cc dc rows s k j hj hkj
      (Or.inr ⟨i, lt_trans hij hj, hij, hki⟩) herr htj
  · have hmem : k ∈ keysOf (runRows hs cm cc dc s rows).2.1 :=
      runRows_mem_of_rowkey hs cm cc dc rows s k i (lt_trans hij hj) hki herr
    have hnd : distinctB (keysOf (runRows hs cm cc dc s rows).2.1) = true :=
      runRows_nodup hs cm cc dc rows s hd
    exact count_one_of_distinct _ k hnd hmem

/-- Claim C10 (counterexample).  The same one-row sheet that imports
fine (fresh key, unparseable quantity becomes NULL) makes the whole run
raise when the key occurs twice: the duplicate routes the second
occurrence into the defective update path. -/
theorem duplicate_key_batch_can_fail :
    (import_excel_inteligente initialStore tDupKAbort).err = some Err.bindingMismatch ∧
    (import_excel_inteligente initialStore tOneKAbort).err = none := by
  exact ⟨by decide, by decide⟩

/-- Witness for C10: key `K` twice in one batch — first row inserted,
second updated, one record with key `K` afterwards. -/
theorem duplicate_keys_one_record_witness :
    ((runRows hsCP colmapCP "codigo" dbColsInit initialStore tDupK.rows).2.1.rows.filter
      (fun r => r.codigo == "K")).length = 1 :=
  (duplicate_keys_one_record hsCP colmapCP "codigo" dbColsInit tDupK.rows initialStore "K"
    0 1 (by decide) (by decide) (by decide) (by decide) (by decide)
    (fun i' hi' h => absurd h (Nat.not_lt_zero i')) (by decide) (by decide)).2.2.2
